import Mathlib

/-!
Verification of the `rat` file-rationalisation program (rat.c).

We give a shallow embedding of the core of rat.c: the filesystem model the
program manipulates (a name table mapping paths to inode numbers plus an
immutable content table), the syscall layer it uses (rename / link / unlink /
open / lstat, each of which may be denied by the environment), and the
program functions `compare`, `replace2`, `replace`, `comb2`, `combine` and
`assoc`, translated clause by clause from the C source.  Side effects are
made explicit: each function returns the new filesystem state together with
a trace of the syscalls it attempted and the messages it printed.
-/

namespace RatProg

/-- File paths; rat.c manipulates them as strings. -/
abbrev Path := String

/-- Inode numbers (`ino_t`). -/
abbrev Ino := Nat

/-- The filesystem as rat.c observes it: a table of directory entries
(path to inode, duplicate-free by construction) and the byte content of
each inode.  rat.c never writes file data, so `content` is never updated. -/
structure FS where
  names : List (Path × Ino)
  content : Ino → List Nat

/-- Find the inode of a path in a table of directory entries. -/
def lookupA : List (Path × Ino) → Path → Option Ino
  | [], _ => none
  | e :: t, p => if e.1 = p then some e.2 else lookupA t p

/-- Remove all entries of a path from a table of directory entries. -/
def eraseA : List (Path × Ino) → Path → List (Path × Ino)
  | [], _ => []
  | e :: t, p => if e.1 = p then eraseA t p else e :: eraseA t p

/-- Resolve a path to its inode, as `stat`/`open` would. -/
def FS.lookup (fs : FS) (p : Path) : Option Ino :=
  lookupA fs.names p

/-- Remove a directory entry. -/
def FS.erase (fs : FS) (p : Path) : FS :=
  { fs with names := eraseA fs.names p }

/-- Add (or overwrite) a directory entry. -/
def FS.insert (fs : FS) (p : Path) (i : Ino) : FS :=
  { fs with names := (p, i) :: (fs.erase p).names }

/-- The environment of a run: which syscalls the OS will allow (injected
permission failures, as in the spec's simulated-error scenarios), and how
many hard links each inode has outside the modelled name table. -/
structure Sys where
  renameOk : Path → Path → Bool
  linkOk : Path → Path → Bool
  unlinkOk : Path → Bool
  openOk : Path → Bool
  statOk : Path → Bool
  nlinkExt : Ino → Nat

/-- `st_nlink` of an inode: links outside the modelled table plus the
directory entries referencing it. -/
def FS.nlink (fs : FS) (sys : Sys) (i : Ino) : Nat :=
  sys.nlinkExt i + (fs.names.filter (fun e => decide (e.2 = i))).length

/-- `rename(old, dst)`: atomic; fails if denied or `old` is missing;
otherwise moves the entry, replacing `dst` if it exists. -/
def fsRename (sys : Sys) (fs : FS) (old dst : Path) : Option FS :=
  if sys.renameOk old dst then
    match fs.lookup old with
    | none => none
    | some i => some ((fs.erase old).insert dst i)
  else none

/-- `link(src, dst)`: fails if denied, `src` missing, or `dst` present. -/
def fsLink (sys : Sys) (fs : FS) (src dst : Path) : Option FS :=
  if sys.linkOk src dst then
    match fs.lookup src with
    | none => none
    | some i =>
      match fs.lookup dst with
      | some _ => none
      | none => some (fs.insert dst i)
  else none

/-- `unlink(p)`: fails if denied or `p` is missing. -/
def fsUnlink (sys : Sys) (fs : FS) (p : Path) : Option FS :=
  if sys.unlinkOk p then
    match fs.lookup p with
    | none => none
    | some _ => some (fs.erase p)
  else none

/-- `open(p, O_RDONLY)`: the inode whose content will be read, if the
file can be opened. -/
def openFile (sys : Sys) (fs : FS) (p : Path) : Option Ino :=
  if sys.openOk p then fs.lookup p else none

/-- `lstat(p)` as used by `replace`: just the `st_nlink` field. -/
def lstatNlink (sys : Sys) (fs : FS) (p : Path) : Option Nat :=
  if sys.statOk p then (fs.lookup p).map (fun i => fs.nlink sys i) else none

/-- Events of a run: syscall attempts (with their outcome) and the
messages rat.c prints.  Debug-only output (`debug` flag) is omitted. -/
inductive Ev where
  /-- a `rename(old, dst)` attempt -/
  | rn (old dst : Path) (ok : Bool)
  /-- a `link(src, dst)` attempt -/
  | ln (src dst : Path) (ok : Bool)
  /-- an `unlink(p)` attempt -/
  | ul (p : Path) (ok : Bool)
  /-- `-n` output `link <to> to <from>` -/
  | outLinkIntent (dst src : Path)
  /-- `error("failed to link %s to %s - copy has been left on %s")` -/
  | errFailedLink (dst src bkp : Path)
  /-- `error("cannot remove temporary file %s")` -/
  | errCannotRemove (p : Path)
  /-- verbose output `linking <to> to <from>` -/
  | outLinking (dst src : Path)
  /-- `fprintf(stderr, "Cannot restat %s")` -/
  | errCannotRestat (p : Path)
  deriving DecidableEq

/-- The option flags of rat.c that the core consults, plus the temporary
file suffix: rat.c builds the backup name by appending the hex pid and
time to `to`; we model that suffix as a fixed string of the run. -/
structure Config where
  noexec : Bool
  verbose : Bool
  ignore_uid : Bool
  ignore_gid : Bool
  ignore_perms : Bool
  tmpSuffix : String

/-- One class member: the stored file name and the inode number recorded
when the file was scanned (`Info.i_name` / `Info.i_ino`).  The recorded
inode is not refreshed when the run later relinks the path. -/
structure Info where
  name : Path
  ino : Ino
  deriving DecidableEq

/-- Result of `replace2`: the new filesystem, the trace, and the C return
value (1 success, 0 failure, -1 catastrophic failure). -/
structure Rep2Res where
  fs : FS
  evs : List Ev
  ret : Int

/-- `replace2(from, to)` of rat.c, translated branch by branch (including
the order of the two inner branches after a failed `link`, exactly as the
C source has them).  `src` is `from`, `dst` is `to`; the backup name is
`to` with the pid/time suffix appended.  The priority raise/lower calls
are scheduling hints with no filesystem effect and are not modelled. -/
def replace2 (cfg : Config) (sys : Sys) (fs : FS) (src dst : Path) : Rep2Res :=
  if cfg.noexec then
    ⟨fs, [.outLinkIntent dst src], 1⟩
  else
    let bkp := dst ++ cfg.tmpSuffix
    match fsRename sys fs dst bkp with
    | none => ⟨fs, [.rn dst bkp false], 0⟩
    | some fs1 =>
      match fsLink sys fs1 src dst with
      | none =>
        match fsRename sys fs1 bkp dst with
        | none => ⟨fs1, [.rn dst bkp true, .ln src dst false, .rn bkp dst false], 0⟩
        | some fs2 =>
          ⟨fs2, [.rn dst bkp true, .ln src dst false, .rn bkp dst true,
                 .errFailedLink dst src bkp], -1⟩
      | some fs2 =>
        match fsUnlink sys fs2 bkp with
        | none =>
          ⟨fs2, [.rn dst bkp true, .ln src dst true, .ul bkp false, .errCannotRemove bkp]
                  ++ (if cfg.verbose then [.outLinking dst src] else []), 1⟩
        | some fs3 =>
          ⟨fs3, [.rn dst bkp true, .ln src dst true, .ul bkp true]
                  ++ (if cfg.verbose then [.outLinking dst src] else []), 1⟩

/-- `BUFSIZ` of stdio: the chunk size of `compare`'s read loop.  The
particular value does not matter, only that it is positive. -/
def BUFSIZ : Nat := 1024

/-- The read/compare loop of `compare`, on the byte lists of the two open
files.  Each turn reads one `BUFSIZ` chunk from each file (`n1`/`n2` bytes,
short at end of file), fails on a length mismatch or a `memcmp` mismatch,
and stops after a short read.  The loop runs at most `xs.length + 1`
turns (each full turn consumes at least one byte), which we supply as
structural fuel. -/
def cmpChunksF : Nat → List Nat → List Nat → Int
  | 0, _, _ => 1
  | fuel + 1, xs, ys =>
    if (xs.take BUFSIZ).length ≠ (ys.take BUFSIZ).length then 1
    else if xs.take BUFSIZ ≠ ys.take BUFSIZ then 1
    else if 0 < (xs.take BUFSIZ).length then
      cmpChunksF fuel (xs.drop BUFSIZ) (ys.drop BUFSIZ)
    else 0

/-- The comparison loop with its sufficient fuel. -/
def cmpChunks (xs ys : List Nat) : Int :=
  cmpChunksF (xs.length + 1) xs ys

/-- `compare(file1, file2)` of rat.c: -1 if either file cannot be opened,
otherwise 0 for identical contents and 1 for different contents. -/
def compare (sys : Sys) (fs : FS) (f1 f2 : Path) : Int :=
  match openFile sys fs f1 with
  | none => -1
  | some i1 =>
    match openFile sys fs f2 with
    | none => -1
    | some i2 => cmpChunks (fs.content i1) (fs.content i2)

/-- Result of `replace`: new filesystem, trace, and the C return value
(1 = linked / already linked / attempted, 0 = different or unmergeable). -/
structure RepRes where
  fs : FS
  evs : List Ev
  ok : Bool

/-- `replace(a, b)` of rat.c: already linked if the recorded inode numbers
are equal; different if `compare` is nonzero; otherwise restat both names
and hand the pair to `replace2`, retiring the name with the fewer links
(`b` on a tie).  The return value of `replace2` is ignored. -/
def replace (cfg : Config) (sys : Sys) (fs : FS) (a b : Info) : RepRes :=
  if a.ino = b.ino then ⟨fs, [], true⟩
  else if compare sys fs a.name b.name ≠ 0 then ⟨fs, [], false⟩
  else
    match lstatNlink sys fs a.name with
    | none => ⟨fs, [.errCannotRestat a.name], false⟩
    | some na =>
      match lstatNlink sys fs b.name with
      | none => ⟨fs, [.errCannotRestat b.name], false⟩
      | some nb =>
        if nb ≤ na then
          let r := replace2 cfg sys fs a.name b.name
          ⟨r.fs, r.evs, true⟩
        else
          let r := replace2 cfg sys fs b.name a.name
          ⟨r.fs, r.evs, true⟩

/-- Result of `comb2`: final filesystem, trace, the members kept in the
list (the value `comb2` returns in C), and the members removed from it. -/
structure Comb2Res where
  fs : FS
  evs : List Ev
  kept : List Info
  retired : List Info

/-- `comb2(elem, ilist)` of rat.c: sweep `elem` against each member of the
list, removing a member whenever `replace` reports it handled. -/
def comb2 (cfg : Config) (sys : Sys) (fs : FS) (elem : Info) : List Info → Comb2Res
  | [] => ⟨fs, [], [], []⟩
  | b :: rest =>
    let r := replace cfg sys fs elem b
    if r.ok then
      let rr := comb2 cfg sys r.fs elem rest
      ⟨rr.fs, r.evs ++ rr.evs, rr.kept, b :: rr.retired⟩
    else
      let rr := comb2 cfg sys r.fs elem rest
      ⟨rr.fs, r.evs ++ rr.evs, b :: rr.kept, rr.retired⟩

/-- Result of `combine`: final filesystem, trace, the surviving members
(each head swept, plus a final singleton), and the retired members. -/
structure CombineRes where
  fs : FS
  evs : List Ev
  survivors : List Info
  retired : List Info

/-- The loop of `combine(list)`: while at least two members remain, sweep
the head against the tail with `comb2` and continue on the members the
sweep kept.  `comb2` never lengthens the list, so the loop runs at most
`l.length` times; that bound is supplied as structural fuel. -/
def combineF (cfg : Config) (sys : Sys) : Nat → FS → List Info → CombineRes
  | 0, fs, l => ⟨fs, [], l, []⟩
  | fuel + 1, fs, l =>
    match l with
    | [] => ⟨fs, [], [], []⟩
    | [a] => ⟨fs, [], [a], []⟩
    | a :: b :: rest =>
      let r1 := comb2 cfg sys fs a (b :: rest)
      let r2 := combineF cfg sys fuel r1.fs r1.kept
      ⟨r2.fs, r1.evs ++ r2.evs, a :: r2.survivors, r1.retired ++ r2.retired⟩

/-- `combine(list)` of rat.c, with its fuel instantiated. -/
def combine (cfg : Config) (sys : Sys) (fs : FS) (l : List Info) : CombineRes :=
  combineF cfg sys l.length fs l

/-- The key fields of a `Head` structure: size, device, owner, group and
permissions of the files of one equivalence class. -/
structure HeadKey where
  size : Nat
  dev : Nat
  uid : Nat
  gid : Nat
  perms : Nat
  deriving DecidableEq

/-- One equivalence class: its key and its member list (`h_info`). -/
structure EqClass where
  key : HeadKey
  infos : List Info
  deriving DecidableEq

/-- The matching condition of `assoc`: equal size and device, and equal
owner / group / permissions unless the respective flag says to ignore. -/
def keyMatches (cfg : Config) (k : HeadKey) (c : EqClass) : Bool :=
  decide (k.size = c.key.size) && decide (k.dev = c.key.dev) &&
  (cfg.ignore_uid || decide (k.uid = c.key.uid)) &&
  (cfg.ignore_gid || decide (k.gid = c.key.gid)) &&
  (cfg.ignore_perms || decide (k.perms = c.key.perms))

/-- The scan loop of `assoc`: walk the class list; at the first class the
key fits, push the new member on the front of that class's member list and
return the (otherwise unchanged) list; `none` if no class fits. -/
def assocIns (cfg : Config) (k : HeadKey) (inf : Info) : List EqClass → Option (List EqClass)
  | [] => none
  | c :: rest =>
    if keyMatches cfg k c then some (⟨c.key, inf :: c.infos⟩ :: rest)
    else (assocIns cfg k inf rest).map (fun l => c :: l)

/-- `assoc(hp, list)` of rat.c: insert into the first fitting class, or
push a fresh single-member class onto the front of the whole list. -/
def assoc (cfg : Config) (k : HeadKey) (inf : Info) (list : List EqClass) : List EqClass :=
  match assocIns cfg k inf list with
  | some l => l
  | none => ⟨k, [inf]⟩ :: list

/-- Replay one traced event against a filesystem state; used to name the
intermediate states ("observable instants") of a trace. -/
def applyEv (sys : Sys) (fs : FS) : Ev → FS
  | .rn old dst true =>
    match fsRename sys fs old dst with
    | some fs1 => fs1
    | none => fs
  | .ln s d true =>
    match fsLink sys fs s d with
    | some fs1 => fs1
    | none => fs
  | .ul p true =>
    match fsUnlink sys fs p with
    | some fs1 => fs1
    | none => fs
  | _ => fs

/-- All observable instants of a trace, starting from the initial state. -/
def statesAlong (sys : Sys) (fs : FS) (evs : List Ev) : List FS :=
  List.scanl (applyEv sys) fs evs

/-- The content a path currently resolves to, if any. -/
def contentAt (fs : FS) (p : Path) : Option (List Nat) :=
  (fs.lookup p).map fs.content

/-- True of events that are not filesystem mutations (messages only). -/
def evNoSyscall : Ev → Bool
  | .rn _ _ _ => false
  | .ln _ _ _ => false
  | .ul _ _ => false
  | _ => true

/-- An environment that denies nothing: every rename, link, unlink, open
and stat the program asks for is permitted. -/
def Sys.flawless (sys : Sys) : Prop :=
  (∀ o d, sys.renameOk o d = true) ∧ (∀ s d, sys.linkOk s d = true) ∧
  (∀ p, sys.unlinkOk p = true) ∧ (∀ p, sys.openOk p = true) ∧
  (∀ p, sys.statOk p = true)

/-- Every listed member's name still resolves, to content equal to the
content of the inode recorded for it at scan time.  This holds of a fresh
scan (where name and recorded inode agree exactly) and is preserved by the
run, which only ever relinks a name to a byte-identical inode. -/
def RecOK (fs : FS) (l : List Info) : Prop :=
  ∀ m ∈ l, contentAt fs m.name = some (fs.content m.ino)

/-- No member's backup name collides with an existing directory entry. -/
def BkFresh (cfg : Config) (fs : FS) (l : List Info) : Prop :=
  ∀ m ∈ l, fs.lookup (m.name ++ cfg.tmpSuffix) = none

/-- The member names are pairwise distinct. -/
def NamesNodup (l : List Info) : Prop :=
  (l.map Info.name).Nodup

/-! ### Concrete fixtures used by the example runs -/

/-- Default configuration: no flags, suffix standing for the pid/time
hex digits. -/
def cfgN : Config := ⟨false, false, false, false, false, ".t"⟩

/-- Dry-run configuration: `-n` also switches on verbose, as `main` does. -/
def cfgDry : Config := ⟨true, true, false, false, false, ".t"⟩

/-- An environment that denies nothing and has no external links. -/
def sysAll : Sys :=
  ⟨fun _ _ => true, fun _ _ => true, fun _ => true, fun _ => true, fun _ => true, fun _ => 0⟩

/-- Denies nothing; inode 3 has four extra hard links outside the run. -/
def sysExt3 : Sys :=
  ⟨fun _ _ => true, fun _ _ => true, fun _ => true, fun _ => true, fun _ => true,
   fun i => if i = 3 then 4 else 0⟩

/-- Denies nothing; inode 1 has two extra hard links outside the run
(so the path `a` on inode 1 shows `st_nlink` 3). -/
def sysExtA : Sys :=
  ⟨fun _ _ => true, fun _ _ => true, fun _ => true, fun _ => true, fun _ => true,
   fun i => if i = 1 then 2 else 0⟩

/-- Denies every rename (the backup rename fails recoverably). -/
def sysNoRename : Sys :=
  ⟨fun _ _ => false, fun _ _ => true, fun _ => true, fun _ => true, fun _ => true, fun _ => 0⟩

/-- Denies every link (simulated permission error); renames allowed. -/
def sysNoLink : Sys :=
  ⟨fun _ _ => true, fun _ _ => false, fun _ => true, fun _ => true, fun _ => true, fun _ => 0⟩

/-- Denies every link, and also denies the restore rename from the backup
name: only renames whose source is the plain name `b` are allowed. -/
def sysNoLinkNoRestore : Sys :=
  ⟨fun o _ => decide (o = "b"), fun _ _ => false, fun _ => true, fun _ => true, fun _ => true,
   fun _ => 0⟩

/-- Denies `lstat` of the path `a` only. -/
def sysNoStatA : Sys :=
  ⟨fun _ _ => true, fun _ _ => true, fun _ => true, fun _ => true, fun p => decide (p ≠ "a"),
   fun _ => 0⟩

/-- Two byte-identical files on distinct inodes. -/
def fsAB : FS := ⟨[("a", 1), ("b", 2)], fun _ => [7]⟩

/-- Three byte-identical files on distinct inodes. -/
def fsABC : FS := ⟨[("a", 1), ("b", 2), ("c", 3)], fun _ => [7]⟩

/-- Two identical files and one different file. -/
def fsUneq : FS := ⟨[("a", 1), ("b", 2), ("c", 3)], fun i => if i = 3 then [9] else [7]⟩

/-- An already-consolidated state: identical contents share one inode. -/
def fsDone : FS := ⟨[("a", 1), ("b", 1), ("c", 2)], fun i => if i = 2 then [9] else [7]⟩

/-- Two byte-identical files discovered as `f1` then `f2`. -/
def fsTwo : FS := ⟨[("f1", 1), ("f2", 2)], fun _ => [7]⟩

/-- Scan records for the fixture files. -/
def infoA : Info := ⟨"a", 1⟩

def infoB : Info := ⟨"b", 2⟩

def infoC : Info := ⟨"c", 3⟩

/-- Re-scan records over the output of the first `fsABC` run. -/
def infoA2 : Info := ⟨"a", 3⟩

def infoB2 : Info := ⟨"b", 1⟩

def infoC2 : Info := ⟨"c", 3⟩

def infoF1 : Info := ⟨"f1", 1⟩

def infoF2 : Info := ⟨"f2", 2⟩

/-- A classification key fixture. -/
def key0 : HeadKey := ⟨1, 1, 0, 0, 420⟩

/-- A key differing from `key0` in size only. -/
def key1 : HeadKey := ⟨2, 1, 0, 0, 420⟩

/-- Two zero-length files. -/
def fsEmpty : FS := ⟨[("e1", 5), ("e2", 6)], fun _ => []⟩

/-- Scan records over the consolidated state `fsDone`. -/
def infoDA : Info := ⟨"a", 1⟩

def infoDB : Info := ⟨"b", 1⟩

def infoDC : Info := ⟨"c", 2⟩

/-! ### Basic lemmas about the name table -/

theorem lookupA_erase (l : List (Path × Ino)) (p : Path) :
    lookupA (eraseA l p) p = none := by
  induction l with
  | nil => rfl
  | cons e t ih =>
    by_cases hp : e.1 = p
    · simp [eraseA, hp, ih]
    · simp [eraseA, lookupA, hp, ih]

theorem lookupA_erase_ne (l : List (Path × Ino)) {p q : Path} (h : q ≠ p) :
    lookupA (eraseA l p) q = lookupA l q := by
  induction l with
  | nil => rfl
  | cons e t ih =>
    by_cases hp : e.1 = p
    · have hq : ¬ (e.1 = q) := by rw [hp]; exact fun hh => h hh.symm
      have hpq : ¬ (p = q) := fun hh => h hh.symm
      simp [eraseA, lookupA, hp, hq, hpq, ih]
    · simp [eraseA, lookupA, hp, ih]

theorem lookup_erase (fs : FS) (p : Path) : (fs.erase p).lookup p = none :=
  lookupA_erase fs.names p

theorem lookup_erase_ne (fs : FS) {p q : Path} (h : q ≠ p) :
    (fs.erase p).lookup q = fs.lookup q :=
  lookupA_erase_ne fs.names h

theorem lookup_insert (fs : FS) (p : Path) (i : Ino) :
    (fs.insert p i).lookup p = some i := by
  simp [FS.lookup, FS.insert, lookupA]

theorem lookup_insert_ne (fs : FS) {p q : Path} (i : Ino) (h : q ≠ p) :
    (fs.insert p i).lookup q = fs.lookup q := by
  have hpq : ¬ ((p, i).1 = q) := fun hh => h hh.symm
  show lookupA ((p, i) :: eraseA fs.names p) q = fs.lookup q
  rw [lookupA, if_neg hpq]
  exact lookupA_erase_ne fs.names h

theorem content_erase (fs : FS) (p : Path) : (fs.erase p).content = fs.content := rfl

theorem content_insert (fs : FS) (p : Path) (i : Ino) :
    (fs.insert p i).content = fs.content := rfl

/-! ### The compare loop -/

theorem BUFSIZ_pos : 0 < BUFSIZ := by decide

theorem cmpChunksF_eq :
    ∀ (fuel : Nat) (xs ys : List Nat), xs.length < fuel →
      cmpChunksF fuel xs ys = if xs = ys then 0 else 1 := by
  intro fuel
  induction fuel with
  | zero => intro xs ys h; omega
  | succ n ih =>
    intro xs ys h
    show (if (xs.take BUFSIZ).length ≠ (ys.take BUFSIZ).length then (1 : Int)
      else if xs.take BUFSIZ ≠ ys.take BUFSIZ then 1
      else if 0 < (xs.take BUFSIZ).length then
        cmpChunksF n (xs.drop BUFSIZ) (ys.drop BUFSIZ)
      else 0) = if xs = ys then 0 else 1
    by_cases hlen : (xs.take BUFSIZ).length ≠ (ys.take BUFSIZ).length
    · have hne : ¬ (xs = ys) := fun he => hlen (by rw [he])
      rw [if_pos hlen, if_neg hne]
    · rw [if_neg hlen]
      push_neg at hlen
      by_cases htk : xs.take BUFSIZ = ys.take BUFSIZ
      · rw [if_neg (fun hh => hh htk)]
        by_cases hpos : 0 < (xs.take BUFSIZ).length
        · have hxs : 0 < xs.length := by
            rw [List.length_take] at hpos; omega
          have hrec : (xs.drop BUFSIZ).length < n := by
            rw [List.length_drop]
            have := BUFSIZ_pos
            omega
          have hiff : (xs = ys) ↔ (xs.drop BUFSIZ = ys.drop BUFSIZ) := by
            constructor
            · intro he; rw [he]
            · intro he
              have h1 := List.take_append_drop BUFSIZ xs
              have h2 := List.take_append_drop BUFSIZ ys
              rw [← h1, ← h2, htk, he]
          rw [if_pos hpos, ih _ _ hrec]
          by_cases he : xs = ys
          · rw [if_pos (hiff.mp he), if_pos he]
          · rw [if_neg (fun hh => he (hiff.mpr hh)), if_neg he]
        · have hx0 : (xs.take BUFSIZ).length = 0 := by omega
          have hy0 : (ys.take BUFSIZ).length = 0 := by rw [← hlen]; omega
          have hxs : xs = [] := by
            rw [List.length_take] at hx0
            have := BUFSIZ_pos
            exact List.length_eq_zero.mp (by omega)
          have hys : ys = [] := by
            rw [List.length_take] at hy0
            have := BUFSIZ_pos
            exact List.length_eq_zero.mp (by omega)
          subst hxs; subst hys
          rw [if_neg hpos, if_pos rfl]
      · have hne : ¬ (xs = ys) := fun he => htk (by rw [he])
        rw [if_pos htk, if_neg hne]

/-- The chunked read loop decides exactly byte-list equality. -/
theorem cmpChunks_eq (xs ys : List Nat) :
    cmpChunks xs ys = if xs = ys then 0 else 1 := by
  exact cmpChunksF_eq (xs.length + 1) xs ys (by omega)

/-! ### Lemmas about compare -/

theorem compare_eq_zero_iff (sys : Sys) (fs : FS) (f1 f2 : Path) :
    compare sys fs f1 f2 = 0 ↔
      ∃ i1 i2, openFile sys fs f1 = some i1 ∧ openFile sys fs f2 = some i2 ∧
        fs.content i1 = fs.content i2 := by
  cases h1 : openFile sys fs f1 with
  | none => simp [compare, h1]
  | some i1 =>
    cases h2 : openFile sys fs f2 with
    | none => simp [compare, h1, h2]
    | some i2 =>
      simp only [compare, h1, h2]
      rw [cmpChunks_eq]
      by_cases he : fs.content i1 = fs.content i2
      · simp [he]
      · simp only [if_neg he]
        constructor
        · intro hh; exact absurd hh (by decide)
        · rintro ⟨j1, j2, hj1, hj2, hj⟩
          cases hj1; cases hj2; exact absurd hj he

theorem compare_unreadable {sys : Sys} {fs : FS} {f1 f2 : Path}
    (h : openFile sys fs f1 = none ∨ openFile sys fs f2 = none) :
    compare sys fs f1 f2 = -1 := by
  rcases h with h | h
  · simp [compare, h]
  · cases h1 : openFile sys fs f1 with
    | none => simp [compare, h1]
    | some i1 => simp [compare, h1, h]

theorem compare_different {sys : Sys} {fs : FS} {f1 f2 : Path} {i1 i2 : Ino}
    (h1 : openFile sys fs f1 = some i1) (h2 : openFile sys fs f2 = some i2)
    (hne : fs.content i1 ≠ fs.content i2) :
    compare sys fs f1 f2 = 1 := by
  simp only [compare, h1, h2]
  rw [cmpChunks_eq, if_neg hne]

/-! ### The flawless-environment behaviour of replace2 -/

/-- In an environment that denies nothing, `replace2` succeeds: the retired
name `dst` ends up as a link to `src`'s inode, every other name is
untouched, the backup entry is gone again, and no content changes. -/
theorem replace2_flawless {cfg : Config} {sys : Sys} {fs : FS} {src dst : Path} {si di : Ino}
    (hfl : sys.flawless) (hnx : cfg.noexec = false)
    (hsrc : fs.lookup src = some si) (hdst : fs.lookup dst = some di)
    (hbk : fs.lookup (dst ++ cfg.tmpSuffix) = none)
    (hsd : src ≠ dst) :
    (replace2 cfg sys fs src dst).ret = 1 ∧
    (replace2 cfg sys fs src dst).fs.lookup dst = some si ∧
    (∀ q, q ≠ dst → (replace2 cfg sys fs src dst).fs.lookup q = fs.lookup q) ∧
    (replace2 cfg sys fs src dst).fs.content = fs.content := by
  obtain ⟨hrn, hlk, hul, hop, hst⟩ := hfl
  have hsb : src ≠ dst ++ cfg.tmpSuffix := by
    intro hh; rw [hh, hbk] at hsrc; exact Option.noConfusion hsrc
  have hdb : dst ≠ dst ++ cfg.tmpSuffix := by
    intro hh; rw [hh, hbk] at hdst; exact Option.noConfusion hdst
  have h1 : fsRename sys fs dst (dst ++ cfg.tmpSuffix)
      = some ((fs.erase dst).insert (dst ++ cfg.tmpSuffix) di) := by
    simp [fsRename, hrn, hdst]
  have e1a : ((fs.erase dst).insert (dst ++ cfg.tmpSuffix) di).lookup src = some si := by
    rw [lookup_insert_ne _ _ hsb, lookup_erase_ne _ hsd]; exact hsrc
  have e1b : ((fs.erase dst).insert (dst ++ cfg.tmpSuffix) di).lookup dst = none := by
    rw [lookup_insert_ne _ _ hdb, lookup_erase]
  have h2 : fsLink sys ((fs.erase dst).insert (dst ++ cfg.tmpSuffix) di) src dst
      = some (((fs.erase dst).insert (dst ++ cfg.tmpSuffix) di).insert dst si) := by
    simp [fsLink, hlk, e1a, e1b]
  have e2a : ((((fs.erase dst).insert (dst ++ cfg.tmpSuffix) di)).insert dst si).lookup
      (dst ++ cfg.tmpSuffix) = some di := by
    rw [lookup_insert_ne _ _ (Ne.symm hdb), lookup_insert]
  have h3 : fsUnlink sys ((((fs.erase dst).insert (dst ++ cfg.tmpSuffix) di)).insert dst si)
      (dst ++ cfg.tmpSuffix)
      = some (((((fs.erase dst).insert (dst ++ cfg.tmpSuffix) di)).insert dst si).erase
          (dst ++ cfg.tmpSuffix)) := by
    simp [fsUnlink, hul, e2a]
  have hres : replace2 cfg sys fs src dst =
      ⟨((((fs.erase dst).insert (dst ++ cfg.tmpSuffix) di)).insert dst si).erase
          (dst ++ cfg.tmpSuffix),
       [.rn dst (dst ++ cfg.tmpSuffix) true, .ln src dst true, .ul (dst ++ cfg.tmpSuffix) true]
         ++ (if cfg.verbose then [.outLinking dst src] else []), 1⟩ := by
    simp only [replace2, hnx, Bool.false_eq_true, if_false, h1, h2, h3]
  have hfsr : (replace2 cfg sys fs src dst).fs =
      ((((fs.erase dst).insert (dst ++ cfg.tmpSuffix) di)).insert dst si).erase
        (dst ++ cfg.tmpSuffix) := by
    rw [hres]
  have hret : (replace2 cfg sys fs src dst).ret = 1 := by
    rw [hres]
  refine ⟨hret, ?_, ?_, ?_⟩
  · rw [hfsr, lookup_erase_ne _ hdb, lookup_insert]
  · intro q hq
    rw [hfsr]
    by_cases hqb : q = dst ++ cfg.tmpSuffix
    · rw [hqb, lookup_erase, ← hbk]
    · rw [lookup_erase_ne _ hqb, lookup_insert_ne _ _ hq, lookup_insert_ne _ _ hqb,
        lookup_erase_ne _ hq]
  · rw [hfsr]
    rfl

/-! ### The flawless-environment behaviour of replace -/

/-- In an environment that denies nothing, one `replace` call preserves
the content observable at every path (a merge relinks a name to a
byte-identical inode), touches no content, and reports the pair handled
exactly when the two names hold identical bytes. -/
theorem replace_flawless {cfg : Config} {sys : Sys} {fs : FS} {a b : Info}
    (hfl : sys.flawless) (hnx : cfg.noexec = false)
    (hra : contentAt fs a.name = some (fs.content a.ino))
    (hrb : contentAt fs b.name = some (fs.content b.ino))
    (hab : a.name ≠ b.name)
    (hbka : fs.lookup (a.name ++ cfg.tmpSuffix) = none)
    (hbkb : fs.lookup (b.name ++ cfg.tmpSuffix) = none) :
    (∀ p, contentAt (replace cfg sys fs a b).fs p = contentAt fs p) ∧
    (replace cfg sys fs a b).fs.content = fs.content ∧
    ((replace cfg sys fs a b).ok = true ↔ fs.content a.ino = fs.content b.ino) := by
  obtain ⟨ia, hia, hca⟩ : ∃ ia, fs.lookup a.name = some ia ∧
      fs.content ia = fs.content a.ino := by
    rcases Option.map_eq_some'.mp hra with ⟨ia, h1, h2⟩
    exact ⟨ia, h1, h2⟩
  obtain ⟨ib, hib, hcb⟩ : ∃ ib, fs.lookup b.name = some ib ∧
      fs.content ib = fs.content b.ino := by
    rcases Option.map_eq_some'.mp hrb with ⟨ib, h1, h2⟩
    exact ⟨ib, h1, h2⟩
  by_cases hii : a.ino = b.ino
  · have hok : replace cfg sys fs a b = ⟨fs, [], true⟩ := by
      simp [replace, hii]
    rw [hok]
    exact ⟨fun p => rfl, rfl, by simp [hii]⟩
  · have hopa : openFile sys fs a.name = some ia := by
      simp [openFile, hfl.2.2.2.1, hia]
    have hopb : openFile sys fs b.name = some ib := by
      simp [openFile, hfl.2.2.2.1, hib]
    by_cases hcc : fs.content a.ino = fs.content b.ino
    · have hc0 : compare sys fs a.name b.name = 0 :=
        (compare_eq_zero_iff sys fs a.name b.name).mpr
          ⟨ia, ib, hopa, hopb, by rw [hca, hcb, hcc]⟩
      have hsta : lstatNlink sys fs a.name = some (fs.nlink sys ia) := by
        simp [lstatNlink, hfl.2.2.2.2, hia]
      have hstb : lstatNlink sys fs b.name = some (fs.nlink sys ib) := by
        simp [lstatNlink, hfl.2.2.2.2, hib]
      by_cases hle : fs.nlink sys ib ≤ fs.nlink sys ia
      · have hrw : replace cfg sys fs a b =
            ⟨(replace2 cfg sys fs a.name b.name).fs,
             (replace2 cfg sys fs a.name b.name).evs, true⟩ := by
          simp [replace, hii, hc0, hsta, hstb, hle]
        obtain ⟨_, hdst, hoth, hcont⟩ := replace2_flawless hfl hnx hia hib hbkb hab
        have hfr : (replace cfg sys fs a b).fs =
            (replace2 cfg sys fs a.name b.name).fs := by rw [hrw]
        have hko : (replace cfg sys fs a b).ok = true := by rw [hrw]
        refine ⟨?_, ?_, by rw [hko]; simp [hcc]⟩
        · intro p
          rw [hfr]
          by_cases hp : p = b.name
          · rw [hp]
            unfold contentAt
            rw [hdst, hib, hcont]
            simp only [Option.map_some']
            rw [hca, hcb, hcc]
          · unfold contentAt
            rw [hoth p hp, hcont]
        · rw [hfr]; exact hcont
      · have hrw : replace cfg sys fs a b =
            ⟨(replace2 cfg sys fs b.name a.name).fs,
             (replace2 cfg sys fs b.name a.name).evs, true⟩ := by
          simp [replace, hii, hc0, hsta, hstb, hle]
        obtain ⟨_, hdst, hoth, hcont⟩ :=
          replace2_flawless hfl hnx hib hia hbka (Ne.symm hab)
        have hfr : (replace cfg sys fs a b).fs =
            (replace2 cfg sys fs b.name a.name).fs := by rw [hrw]
        have hko : (replace cfg sys fs a b).ok = true := by rw [hrw]
        refine ⟨?_, ?_, by rw [hko]; simp [hcc]⟩
        · intro p
          rw [hfr]
          by_cases hp : p = a.name
          · rw [hp]
            unfold contentAt
            rw [hdst, hia, hcont]
            simp only [Option.map_some']
            rw [hcb, hca, hcc]
          · unfold contentAt
            rw [hoth p hp, hcont]
        · rw [hfr]; exact hcont
    · have hc1 : compare sys fs a.name b.name = 1 :=
        compare_different hopa hopb (by rw [hca, hcb]; exact hcc)
      have hrw : replace cfg sys fs a b = ⟨fs, [], false⟩ := by
        simp [replace, hii, hc1]
      rw [hrw]
      refine ⟨fun p => rfl, rfl, ?_⟩
      constructor
      · intro hh; exact absurd hh Bool.false_ne_true
      · intro hh; exact absurd hh hcc

/-! ### Invariant transport and the sweep lemma -/

theorem RecOK_transport {fs fs' : FS} {l : List Info}
    (h : RecOK fs l) (hp : ∀ p, contentAt fs' p = contentAt fs p)
    (hc : fs'.content = fs.content) : RecOK fs' l := by
  intro m hm
  rw [hp m.name, h m hm, hc]

theorem BkFresh_transport {cfg : Config} {fs fs' : FS} {l : List Info}
    (h : BkFresh cfg fs l) (hp : ∀ p, contentAt fs' p = contentAt fs p) :
    BkFresh cfg fs' l := by
  intro m hm
  have := hp (m.name ++ cfg.tmpSuffix)
  unfold contentAt at this
  rw [h m hm] at this
  simp only [Option.map_none'] at this
  exact Option.map_eq_none'.mp this

theorem NamesNodup_sub {l1 l2 : List Info} (hs : l1.Sublist l2) (h : NamesNodup l2) :
    NamesNodup l1 :=
  h.sublist (hs.map Info.name)

/-- The sweep of one head over a member list in an environment that
denies nothing: contents observable at every path are preserved; the kept
members form a sublist; every member ends up kept or retired; the kept
members' bytes differ from the head's, and every retired member's bytes
equal the head's. -/
theorem comb2_flawless {cfg : Config} {sys : Sys}
    (hfl : sys.flawless) (hnx : cfg.noexec = false) :
    ∀ (l : List Info) (fs : FS) (elem : Info),
      RecOK fs (elem :: l) → BkFresh cfg fs (elem :: l) → NamesNodup (elem :: l) →
      (∀ p, contentAt (comb2 cfg sys fs elem l).fs p = contentAt fs p) ∧
      (comb2 cfg sys fs elem l).fs.content = fs.content ∧
      (comb2 cfg sys fs elem l).kept.Sublist l ∧
      (∀ m ∈ l, m ∈ (comb2 cfg sys fs elem l).kept ∨ m ∈ (comb2 cfg sys fs elem l).retired) ∧
      (∀ m ∈ (comb2 cfg sys fs elem l).retired, m ∈ l) ∧
      (∀ m ∈ (comb2 cfg sys fs elem l).kept, fs.content m.ino ≠ fs.content elem.ino) ∧
      (∀ m ∈ (comb2 cfg sys fs elem l).retired, fs.content m.ino = fs.content elem.ino) := by
  intro l
  induction l with
  | nil =>
    intro fs elem _ _ _
    refine ⟨fun p => rfl, rfl, List.Sublist.refl [], ?_, ?_, ?_, ?_⟩ <;> simp [comb2]
  | cons b rest ih =>
    intro fs elem hrec hbk hnod
    have hra := hrec elem (by simp)
    have hrb := hrec b (by simp)
    have hab : elem.name ≠ b.name := by
      have h1 := (List.nodup_cons.mp hnod).1
      intro hh
      exact h1 (by rw [hh]; simp)
    have hbka := hbk elem (by simp)
    have hbkb := hbk b (by simp)
    obtain ⟨pres1, cont1, hiff⟩ := replace_flawless hfl hnx hra hrb hab hbka hbkb
    have hsubr : (elem :: rest).Sublist (elem :: b :: rest) :=
      (List.sublist_cons_self b rest).cons₂ elem
    have hrec1 : RecOK (replace cfg sys fs elem b).fs (elem :: rest) :=
      RecOK_transport (fun m hm => hrec m (hsubr.mem hm)) pres1 cont1
    have hbk1 : BkFresh cfg (replace cfg sys fs elem b).fs (elem :: rest) :=
      BkFresh_transport (fun m hm => hbk m (hsubr.mem hm)) pres1
    have hnod1 : NamesNodup (elem :: rest) := NamesNodup_sub hsubr hnod
    obtain ⟨pres2, cont2, hsub, hcov, hretm, hkne, hreq⟩ :=
      ih (replace cfg sys fs elem b).fs elem hrec1 hbk1 hnod1
    by_cases hok : (replace cfg sys fs elem b).ok = true
    · have hfse : (comb2 cfg sys fs elem (b :: rest)).fs =
          (comb2 cfg sys (replace cfg sys fs elem b).fs elem rest).fs := by
        simp [comb2, hok]
      have hke : (comb2 cfg sys fs elem (b :: rest)).kept =
          (comb2 cfg sys (replace cfg sys fs elem b).fs elem rest).kept := by
        simp [comb2, hok]
      have hre : (comb2 cfg sys fs elem (b :: rest)).retired =
          b :: (comb2 cfg sys (replace cfg sys fs elem b).fs elem rest).retired := by
        simp [comb2, hok]
      refine ⟨?_, ?_, ?_, ?_, ?_, ?_, ?_⟩
      · intro p; rw [hfse, pres2 p, pres1 p]
      · rw [hfse, cont2, cont1]
      · rw [hke]; exact hsub.cons b
      · intro m hm
        rcases List.mem_cons.mp hm with hm | hm
        · right; rw [hre, hm]; simp
        · rcases hcov m hm with h | h
          · left; rw [hke]; exact h
          · right; rw [hre]; exact List.mem_cons_of_mem b h
      · intro m hm
        rw [hre] at hm
        rcases List.mem_cons.mp hm with hm | hm
        · rw [hm]; simp
        · exact List.mem_cons_of_mem b (hretm m hm)
      · intro m hm
        rw [hke] at hm
        have := hkne m hm
        rw [cont1] at this
        exact this
      · intro m hm
        rw [hre] at hm
        rcases List.mem_cons.mp hm with hm | hm
        · rw [hm]
          exact (hiff.mp hok).symm
        · have := hreq m hm
          rw [cont1] at this
          exact this
    · have hfse : (comb2 cfg sys fs elem (b :: rest)).fs =
          (comb2 cfg sys (replace cfg sys fs elem b).fs elem rest).fs := by
        simp [comb2, hok]
      have hke : (comb2 cfg sys fs elem (b :: rest)).kept =
          b :: (comb2 cfg sys (replace cfg sys fs elem b).fs elem rest).kept := by
        simp [comb2, hok]
      have hre : (comb2 cfg sys fs elem (b :: rest)).retired =
          (comb2 cfg sys (replace cfg sys fs elem b).fs elem rest).retired := by
        simp [comb2, hok]
      refine ⟨?_, ?_, ?_, ?_, ?_, ?_, ?_⟩
      · intro p; rw [hfse, pres2 p, pres1 p]
      · rw [hfse, cont2, cont1]
      · rw [hke]; exact hsub.cons₂ b
      · intro m hm
        rcases List.mem_cons.mp hm with hm | hm
        · left; rw [hke, hm]; simp
        · rcases hcov m hm with h | h
          · left; rw [hke]; exact List.mem_cons_of_mem b h
          · right; rw [hre]; exact h
      · intro m hm
        rw [hre] at hm
        exact List.mem_cons_of_mem b (hretm m hm)
      · intro m hm
        rw [hke] at hm
        rcases List.mem_cons.mp hm with hm | hm
        · rw [hm]
          intro hh
          exact hok (hiff.mpr hh.symm)
        · have := hkne m hm
          rw [cont1] at this
          exact this
      · intro m hm
        rw [hre] at hm
        have := hreq m hm
        rw [cont1] at this
        exact this

/-- The whole consolidation loop in an environment that denies nothing:
contents observable at every path are preserved, the survivors carry
pairwise distinct bytes, and every retired member's bytes equal the bytes
of some survivor (its sweeping head). -/
theorem combineF_flawless {cfg : Config} {sys : Sys}
    (hfl : sys.flawless) (hnx : cfg.noexec = false) :
    ∀ (fuel : Nat) (l : List Info) (fs : FS), l.length ≤ fuel →
      RecOK fs l → BkFresh cfg fs l → NamesNodup l →
      (∀ p, contentAt (combineF cfg sys fuel fs l).fs p = contentAt fs p) ∧
      (combineF cfg sys fuel fs l).fs.content = fs.content ∧
      (combineF cfg sys fuel fs l).survivors.Sublist l ∧
      (∀ m ∈ l, m ∈ (combineF cfg sys fuel fs l).survivors ∨
        m ∈ (combineF cfg sys fuel fs l).retired) ∧
      (∀ m ∈ (combineF cfg sys fuel fs l).retired, m ∈ l) ∧
      List.Pairwise (fun s t => fs.content s.ino ≠ fs.content t.ino)
        (combineF cfg sys fuel fs l).survivors ∧
      (∀ r ∈ (combineF cfg sys fuel fs l).retired,
        ∃ s ∈ (combineF cfg sys fuel fs l).survivors,
          fs.content r.ino = fs.content s.ino) := by
  intro fuel
  induction fuel with
  | zero =>
    intro l fs hlen _ _ _
    have hl : l = [] := List.length_eq_zero.mp (Nat.le_zero.mp hlen)
    subst hl
    refine ⟨fun p => rfl, rfl, List.Sublist.refl _, ?_, ?_, ?_, ?_⟩ <;> simp [combineF]
  | succ n ih =>
    intro l fs hlen hrec hbk hnod
    match l with
    | [] =>
      refine ⟨fun p => rfl, rfl, ?_, ?_, ?_, ?_, ?_⟩ <;> simp [combineF]
    | [a] =>
      refine ⟨fun p => rfl, rfl, ?_, ?_, ?_, ?_, ?_⟩ <;> simp [combineF]
    | a :: b :: rest =>
      obtain ⟨pres1, cont1, hsub, hcov, hretm, hkne, hreq⟩ :=
        comb2_flawless hfl hnx (b :: rest) fs a hrec hbk hnod
      have hkl : (comb2 cfg sys fs a (b :: rest)).kept.length ≤ n := by
        have h1 := hsub.length_le
        simp only [List.length_cons] at h1 hlen
        omega
      have hsubl : (comb2 cfg sys fs a (b :: rest)).kept.Sublist (a :: b :: rest) :=
        hsub.cons a
      have hrec1 : RecOK (comb2 cfg sys fs a (b :: rest)).fs
          (comb2 cfg sys fs a (b :: rest)).kept :=
        RecOK_transport (fun m hm => hrec m (hsubl.mem hm)) pres1 cont1
      have hbk1 : BkFresh cfg (comb2 cfg sys fs a (b :: rest)).fs
          (comb2 cfg sys fs a (b :: rest)).kept :=
        BkFresh_transport (fun m hm => hbk m (hsubl.mem hm)) pres1
      have hnod1 : NamesNodup (comb2 cfg sys fs a (b :: rest)).kept :=
        NamesNodup_sub hsubl hnod
      obtain ⟨pres2, cont2, hsub2, hcov2, hretm2, hpair2, hmatch2⟩ :=
        ih (comb2 cfg sys fs a (b :: rest)).kept (comb2 cfg sys fs a (b :: rest)).fs
          hkl hrec1 hbk1 hnod1
      have hfse : (combineF cfg sys (n + 1) fs (a :: b :: rest)).fs =
          (combineF cfg sys n (comb2 cfg sys fs a (b :: rest)).fs
            (comb2 cfg sys fs a (b :: rest)).kept).fs := by
        simp [combineF]
      have hsurv : (combineF cfg sys (n + 1) fs (a :: b :: rest)).survivors =
          a :: (combineF cfg sys n (comb2 cfg sys fs a (b :: rest)).fs
            (comb2 cfg sys fs a (b :: rest)).kept).survivors := by
        simp [combineF]
      have hret : (combineF cfg sys (n + 1) fs (a :: b :: rest)).retired =
          (comb2 cfg sys fs a (b :: rest)).retired ++
          (combineF cfg sys n (comb2 cfg sys fs a (b :: rest)).fs
            (comb2 cfg sys fs a (b :: rest)).kept).retired := by
        simp [combineF]
      refine ⟨?_, ?_, ?_, ?_, ?_, ?_, ?_⟩
      · intro p; rw [hfse, pres2 p, pres1 p]
      · rw [hfse, cont2, cont1]
      · rw [hsurv]; exact (hsub2.trans hsub).cons₂ a
      · intro m hm
        rcases List.mem_cons.mp hm with hm | hm
        · left; rw [hsurv, hm]; simp
        · rcases hcov m hm with h | h
          · rcases hcov2 m h with h2 | h2
            · left; rw [hsurv]; exact List.mem_cons_of_mem a h2
            · right; rw [hret]; exact List.mem_append_right _ h2
          · right; rw [hret]; exact List.mem_append_left _ h
      · intro m hm
        rw [hret] at hm
        rcases List.mem_append.mp hm with hm | hm
        · exact List.mem_cons_of_mem a (hretm m hm)
        · exact hsubl.mem (hretm2 m hm)
      · rw [hsurv]
        rw [List.pairwise_cons]
        constructor
        · intro s hs
          exact (hkne s (hsub2.mem hs)).symm
        · exact hpair2.imp (fun h => by rw [cont1] at h; exact h)
      · intro r hr
        rw [hret] at hr
        rcases List.mem_append.mp hr with hr | hr
        · exact ⟨a, by rw [hsurv]; simp, hreq r hr⟩
        · obtain ⟨s, hs, he⟩ := hmatch2 r hr
          refine ⟨s, by rw [hsurv]; exact List.mem_cons_of_mem a hs, ?_⟩
          rw [cont1] at he
          exact he

/-! ### Runs in which every replace call leaves the state unchanged -/

theorem openFile_some {sys : Sys} {fs : FS} {p : Path} {i : Ino}
    (h : openFile sys fs p = some i) : fs.lookup p = some i := by
  unfold openFile at h
  by_cases ho : sys.openOk p = true
  · rwa [if_pos ho] at h
  · rw [if_neg ho] at h; exact absurd h (by simp)

theorem comb2_static {cfg : Config} {sys : Sys} {fs0 : FS} {l0 : List Info} {P : Ev → Prop}
    (hrep : ∀ a b : Info, a ∈ l0 → b ∈ l0 →
      (replace cfg sys fs0 a b).fs = fs0 ∧ ∀ e ∈ (replace cfg sys fs0 a b).evs, P e) :
    ∀ (l : List Info) (elem : Info), elem ∈ l0 → (∀ m ∈ l, m ∈ l0) →
      (comb2 cfg sys fs0 elem l).fs = fs0 ∧
      (∀ e ∈ (comb2 cfg sys fs0 elem l).evs, P e) ∧
      (comb2 cfg sys fs0 elem l).kept.Sublist l := by
  intro l
  induction l with
  | nil =>
    intro elem _ _
    exact ⟨rfl, by simp [comb2], List.Sublist.refl []⟩
  | cons b rest ih =>
    intro elem he hm
    obtain ⟨hfs, hev⟩ := hrep elem b he (hm b (by simp))
    obtain ⟨ihfs, ihev, ihsub⟩ := ih elem he (fun m hmm => hm m (List.mem_cons_of_mem b hmm))
    by_cases hok : (replace cfg sys fs0 elem b).ok = true
    · have e1 : (comb2 cfg sys fs0 elem (b :: rest)).fs =
          (comb2 cfg sys fs0 elem rest).fs := by
        simp [comb2, hok, hfs]
      have e2 : (comb2 cfg sys fs0 elem (b :: rest)).evs =
          (replace cfg sys fs0 elem b).evs ++ (comb2 cfg sys fs0 elem rest).evs := by
        simp [comb2, hok, hfs]
      have e3 : (comb2 cfg sys fs0 elem (b :: rest)).kept =
          (comb2 cfg sys fs0 elem rest).kept := by
        simp [comb2, hok, hfs]
      refine ⟨by rw [e1, ihfs], ?_, by rw [e3]; exact ihsub.cons b⟩
      intro e hee
      rw [e2] at hee
      rcases List.mem_append.mp hee with h | h
      · exact hev e h
      · exact ihev e h
    · have e1 : (comb2 cfg sys fs0 elem (b :: rest)).fs =
          (comb2 cfg sys fs0 elem rest).fs := by
        simp [comb2, hok, hfs]
      have e2 : (comb2 cfg sys fs0 elem (b :: rest)).evs =
          (replace cfg sys fs0 elem b).evs ++ (comb2 cfg sys fs0 elem rest).evs := by
        simp [comb2, hok, hfs]
      have e3 : (comb2 cfg sys fs0 elem (b :: rest)).kept =
          b :: (comb2 cfg sys fs0 elem rest).kept := by
        simp [comb2, hok, hfs]
      refine ⟨by rw [e1, ihfs], ?_, by rw [e3]; exact ihsub.cons₂ b⟩
      intro e hee
      rw [e2] at hee
      rcases List.mem_append.mp hee with h | h
      · exact hev e h
      · exact ihev e h

theorem combineF_static {cfg : Config} {sys : Sys} {fs0 : FS} {l0 : List Info} {P : Ev → Prop}
    (hrep : ∀ a b : Info, a ∈ l0 → b ∈ l0 →
      (replace cfg sys fs0 a b).fs = fs0 ∧ ∀ e ∈ (replace cfg sys fs0 a b).evs, P e) :
    ∀ (fuel : Nat) (l : List Info), (∀ m ∈ l, m ∈ l0) →
      (combineF cfg sys fuel fs0 l).fs = fs0 ∧
      ∀ e ∈ (combineF cfg sys fuel fs0 l).evs, P e := by
  intro fuel
  induction fuel with
  | zero =>
    intro l _
    exact ⟨rfl, by simp [combineF]⟩
  | succ n ih =>
    intro l hm
    match l with
    | [] => exact ⟨rfl, by simp [combineF]⟩
    | [a] => exact ⟨rfl, by simp [combineF]⟩
    | a :: b :: rest =>
      obtain ⟨hfs1, hev1, hsub1⟩ :=
        comb2_static hrep (b :: rest) a (hm a (by simp))
          (fun m hmm => hm m (List.mem_cons_of_mem a hmm))
      obtain ⟨ihfs, ihev⟩ := ih (comb2 cfg sys fs0 a (b :: rest)).kept
        (fun m hmm => hm m (List.mem_cons_of_mem a (hsub1.mem hmm)))
      have e1 : (combineF cfg sys (n + 1) fs0 (a :: b :: rest)).fs =
          (combineF cfg sys n fs0 (comb2 cfg sys fs0 a (b :: rest)).kept).fs := by
        simp [combineF, hfs1]
      have e2 : (combineF cfg sys (n + 1) fs0 (a :: b :: rest)).evs =
          (comb2 cfg sys fs0 a (b :: rest)).evs ++
          (combineF cfg sys n fs0 (comb2 cfg sys fs0 a (b :: rest)).kept).evs := by
        simp [combineF, hfs1]
      refine ⟨by rw [e1, ihfs], ?_⟩
      intro e hee
      rw [e2] at hee
      rcases List.mem_append.mp hee with h | h
      · exact hev1 e h
      · exact ihev e h

/-! ### The claims -/

/-- C1: the claim states the intended outcome reporting of `replace2`:
restore failure is the catastrophic-but-survivable case and must be
reported with the backup path, while a successful restore is a plain
failure with `to` intact and nothing lost.  The code has the two inner
branches swapped: when the restore rename SUCCEEDS (here `b` keeps inode 2
and the backup `b.t` is gone, nothing lost) it returns -1 and prints
"failed to link ... copy has been left on b.t", a message that is false of
the filesystem; and when the restore rename FAILS (content now reachable
only under `b.t`, `b` gone — the genuinely catastrophic case) it returns 0
and prints nothing.  This contradicts `replace2`'s own comment ("-1 for
catastrophic failure (i.e. one of the files may have been lost)"). -/
theorem c1_replace2_inverted_outcome :
    ((replace2 cfgN sysNoLink fsAB "a" "b").ret = -1 ∧
     (replace2 cfgN sysNoLink fsAB "a" "b").evs =
       [Ev.rn "b" "b.t" true, Ev.ln "a" "b" false, Ev.rn "b.t" "b" true,
        Ev.errFailedLink "b" "a" "b.t"] ∧
     (replace2 cfgN sysNoLink fsAB "a" "b").fs.lookup "b" = some 2 ∧
     (replace2 cfgN sysNoLink fsAB "a" "b").fs.lookup "b.t" = none) ∧
    ((replace2 cfgN sysNoLinkNoRestore fsAB "a" "b").ret = 0 ∧
     (replace2 cfgN sysNoLinkNoRestore fsAB "a" "b").evs =
       [Ev.rn "b" "b.t" true, Ev.ln "a" "b" false, Ev.rn "b.t" "b" false] ∧
     (replace2 cfgN sysNoLinkNoRestore fsAB "a" "b").fs.lookup "b" = none ∧
     (replace2 cfgN sysNoLinkNoRestore fsAB "a" "b").fs.lookup "b.t" = some 2) := by
  decide

/-- C2, counterexample: two byte-identical unlinked files with equal link
counts; the backup rename of the preferred direction is denied
(recoverable failure).  The claim asserts the merge is then retried once
in the reverse direction and the failed pair is reported as a non-fatal
warning; in fact the whole trace is the single failed rename attempt — no
reverse-direction attempt (which would have to rename `a` to a backup) and
no message of any kind — and `replace` nevertheless reports the pair
handled (`ok = true`). -/
theorem c2_counterexample :
    (replace cfgN sysNoRename fsAB infoA infoB).evs = [Ev.rn "b" "b.t" false] ∧
    (replace cfgN sysNoRename fsAB infoA infoB).ok = true ∧
    (replace cfgN sysNoRename fsAB infoA infoB).fs.names = fsAB.names ∧
    (∀ e ∈ (replace cfgN sysNoRename fsAB infoA infoB).evs,
      (∀ d o, e ≠ Ev.rn "a" d o) ∧ (∀ s o, e ≠ Ev.ln s "a" o) ∧ evNoSyscall e = false) := by
  refine ⟨by decide, by decide, by decide, ?_⟩
  have h : (replace cfgN sysNoRename fsAB infoA infoB).evs = [Ev.rn "b" "b.t" false] := by
    decide
  intro e he
  rw [h] at he
  rcases List.mem_singleton.mp he with rfl
  refine ⟨?_, ?_, by decide⟩
  · intro d o hh
    injection hh with h1 h2 h3
    exact absurd h1 (by decide)
  · intro s o hh
    exact Ev.noConfusion hh

/-- C2, amended: when the single attempt in the preferred direction
fails recoverably, there is no retry in the reverse direction; the pair
is left unmodified (every path resolves as before) and the sweep drops
the tail member and continues with the remaining pairs, `replace`
reporting the pair handled.  Reporting differs by recoverable mode: a
failed backup rename is silent — its whole trace is the one failed
rename attempt — while a failed link with a successful restore prints the
non-fatal (and misworded, see C1) "failed to link ... copy has been left
on ..." message; in neither mode does any event touch the reverse
direction. -/
theorem c2_amended_no_retry :
    (∀ (cfg : Config) (sys : Sys) (fs : FS) (a b : Info) (na nb : Nat),
      cfg.noexec = false → a.ino ≠ b.ino →
      compare sys fs a.name b.name = 0 →
      lstatNlink sys fs a.name = some na →
      lstatNlink sys fs b.name = some nb →
      nb ≤ na →
      sys.renameOk b.name (b.name ++ cfg.tmpSuffix) = false →
      (replace cfg sys fs a b).fs = fs ∧
      (replace cfg sys fs a b).evs = [Ev.rn b.name (b.name ++ cfg.tmpSuffix) false] ∧
      (replace cfg sys fs a b).ok = true ∧
      ∀ rest, (comb2 cfg sys fs a (b :: rest)).retired =
        b :: (comb2 cfg sys fs a rest).retired) ∧
    (∀ (cfg : Config) (sys : Sys) (fs : FS) (a b : Info) (i j : Ino) (na nb : Nat),
      cfg.noexec = false → a.ino ≠ b.ino →
      compare sys fs a.name b.name = 0 →
      lstatNlink sys fs a.name = some na →
      lstatNlink sys fs b.name = some nb →
      nb ≤ na →
      fs.lookup a.name = some i → fs.lookup b.name = some j →
      fs.lookup (b.name ++ cfg.tmpSuffix) = none →
      a.name ≠ b.name →
      sys.renameOk b.name (b.name ++ cfg.tmpSuffix) = true →
      sys.linkOk a.name b.name = false →
      sys.renameOk (b.name ++ cfg.tmpSuffix) b.name = true →
      (∀ q, (replace cfg sys fs a b).fs.lookup q = fs.lookup q) ∧
      (replace cfg sys fs a b).evs =
        [Ev.rn b.name (b.name ++ cfg.tmpSuffix) true, Ev.ln a.name b.name false,
         Ev.rn (b.name ++ cfg.tmpSuffix) b.name true,
         Ev.errFailedLink b.name a.name (b.name ++ cfg.tmpSuffix)] ∧
      (replace cfg sys fs a b).ok = true ∧
      ∀ rest, (comb2 cfg sys fs a (b :: rest)).retired =
        b :: (comb2 cfg sys (replace cfg sys fs a b).fs a rest).retired) := by
  constructor
  · intro cfg sys fs a b na nb hnx hii hcmp hsa hsb hle hrf
    have h2 : replace2 cfg sys fs a.name b.name =
        ⟨fs, [Ev.rn b.name (b.name ++ cfg.tmpSuffix) false], 0⟩ := by
      simp [replace2, hnx, fsRename, hrf]
    have hnc : ¬ (compare sys fs a.name b.name ≠ 0) := by rw [hcmp]; simp
    have hrw : replace cfg sys fs a b =
        ⟨fs, [Ev.rn b.name (b.name ++ cfg.tmpSuffix) false], true⟩ := by
      simp only [replace, if_neg hii, if_neg hnc, hsa, hsb, if_pos hle, h2]
    refine ⟨by rw [hrw], by rw [hrw], by rw [hrw], ?_⟩
    intro rest
    simp [comb2, hrw]
  · intro cfg sys fs a b i j na nb hnx hii hcmp hsa hsb hle hia hjb hbk hab hrn1 hlk hrn2
    have h1 : fsRename sys fs b.name (b.name ++ cfg.tmpSuffix) =
        some ((fs.erase b.name).insert (b.name ++ cfg.tmpSuffix) j) := by
      simp [fsRename, hrn1, hjb]
    have h2 : fsLink sys ((fs.erase b.name).insert (b.name ++ cfg.tmpSuffix) j)
        a.name b.name = none := by
      simp [fsLink, hlk]
    have f1bkp : ((fs.erase b.name).insert (b.name ++ cfg.tmpSuffix) j).lookup
        (b.name ++ cfg.tmpSuffix) = some j := lookup_insert _ _ _
    have h3 : fsRename sys ((fs.erase b.name).insert (b.name ++ cfg.tmpSuffix) j)
        (b.name ++ cfg.tmpSuffix) b.name =
        some ((((fs.erase b.name).insert (b.name ++ cfg.tmpSuffix) j).erase
          (b.name ++ cfg.tmpSuffix)).insert b.name j) := by
      simp [fsRename, hrn2, f1bkp]
    have hr2 : replace2 cfg sys fs a.name b.name =
        ⟨(((fs.erase b.name).insert (b.name ++ cfg.tmpSuffix) j).erase
            (b.name ++ cfg.tmpSuffix)).insert b.name j,
         [Ev.rn b.name (b.name ++ cfg.tmpSuffix) true, Ev.ln a.name b.name false,
          Ev.rn (b.name ++ cfg.tmpSuffix) b.name true,
          Ev.errFailedLink b.name a.name (b.name ++ cfg.tmpSuffix)], -1⟩ := by
      simp only [replace2, hnx, Bool.false_eq_true, if_false, h1, h2, h3]
    have hnc : ¬ (compare sys fs a.name b.name ≠ 0) := by rw [hcmp]; simp
    have hrw : replace cfg sys fs a b =
        ⟨(replace2 cfg sys fs a.name b.name).fs,
         (replace2 cfg sys fs a.name b.name).evs, true⟩ := by
      simp only [replace, if_neg hii, if_neg hnc, hsa, hsb, if_pos hle]
    have hfr : (replace cfg sys fs a b).fs =
        (((fs.erase b.name).insert (b.name ++ cfg.tmpSuffix) j).erase
          (b.name ++ cfg.tmpSuffix)).insert b.name j := by
      rw [hrw, hr2]
    have hok : (replace cfg sys fs a b).ok = true := by rw [hrw]
    refine ⟨?_, by rw [hrw, hr2], hok, ?_⟩
    · intro q
      rw [hfr]
      by_cases hq : q = b.name
      · rw [hq, lookup_insert]
        exact hjb.symm
      · rw [lookup_insert_ne _ _ hq]
        by_cases hqb : q = b.name ++ cfg.tmpSuffix
        · rw [hqb, lookup_erase]
          exact hbk.symm
        · rw [lookup_erase_ne _ hqb, lookup_insert_ne _ _ hqb, lookup_erase_ne _ hq]
    · intro rest
      simp [comb2, hok]

/-- Witness for the amended C2, covering both recoverable modes at
concrete inputs: the denied backup rename (silent single-event trace) and
the denied link with successful restore (message printed, every path
resolving as before). -/
theorem c2_amended_no_retry_witness :
    ((replace cfgN sysNoRename fsAB infoA infoB).fs = fsAB ∧
     (replace cfgN sysNoRename fsAB infoA infoB).evs =
       [Ev.rn "b" ("b" ++ cfgN.tmpSuffix) false] ∧
     (replace cfgN sysNoRename fsAB infoA infoB).ok = true ∧
     ∀ rest, (comb2 cfgN sysNoRename fsAB infoA (infoB :: rest)).retired =
       infoB :: (comb2 cfgN sysNoRename fsAB infoA rest).retired) ∧
    ((∀ q, (replace cfgN sysNoLink fsAB infoA infoB).fs.lookup q = fsAB.lookup q) ∧
     (replace cfgN sysNoLink fsAB infoA infoB).evs =
       [Ev.rn "b" ("b" ++ cfgN.tmpSuffix) true, Ev.ln "a" "b" false,
        Ev.rn ("b" ++ cfgN.tmpSuffix) "b" true,
        Ev.errFailedLink "b" "a" ("b" ++ cfgN.tmpSuffix)] ∧
     (replace cfgN sysNoLink fsAB infoA infoB).ok = true ∧
     ∀ rest, (comb2 cfgN sysNoLink fsAB infoA (infoB :: rest)).retired =
       infoB :: (comb2 cfgN sysNoLink (replace cfgN sysNoLink fsAB infoA infoB).fs
         infoA rest).retired) :=
  ⟨c2_amended_no_retry.1 cfgN sysNoRename fsAB infoA infoB 1 1 rfl (by decide) (by decide)
     (by decide) (by decide) (by decide) rfl,
   c2_amended_no_retry.2 cfgN sysNoLink fsAB infoA infoB 1 2 1 1 rfl (by decide) (by decide)
     (by decide) (by decide) (by decide) (by decide) (by decide) (by decide) (by decide)
     rfl rfl rfl⟩

/-- C8: classification scans the existing classes in arrival order; the
candidate joins the first class whose key matches exactly on size and
device and, unless the respective ignore flag is set, on owner, group and
permissions (it is pushed on the front of that class's member list, all
other classes untouched — classes are never merged); if no class matches,
a fresh single-member class is pushed onto the front of the list. -/
theorem c8_first_fit (cfg : Config) (k : HeadKey) (inf : Info) :
    (∀ list : List EqClass, (∀ c ∈ list, keyMatches cfg k c = false) →
      assoc cfg k inf list = ⟨k, [inf]⟩ :: list) ∧
    (∀ (l1 : List EqClass) (c : EqClass) (l2 : List EqClass),
      (∀ c' ∈ l1, keyMatches cfg k c' = false) → keyMatches cfg k c = true →
      assoc cfg k inf (l1 ++ c :: l2) = l1 ++ ⟨c.key, inf :: c.infos⟩ :: l2) ∧
    (∀ c : EqClass, keyMatches cfg k c = true ↔
      (k.size = c.key.size ∧ k.dev = c.key.dev ∧
       (cfg.ignore_uid = true ∨ k.uid = c.key.uid) ∧
       (cfg.ignore_gid = true ∨ k.gid = c.key.gid) ∧
       (cfg.ignore_perms = true ∨ k.perms = c.key.perms))) := by
  have hnone : ∀ list : List EqClass, (∀ c ∈ list, keyMatches cfg k c = false) →
      assocIns cfg k inf list = none := by
    intro list
    induction list with
    | nil => intro _; rfl
    | cons c rest ih =>
      intro h
      have hc := h c (by simp)
      simp [assocIns, hc, ih (fun c' hc' => h c' (List.mem_cons_of_mem c hc'))]
  have hfirst : ∀ (l1 : List EqClass) (c : EqClass) (l2 : List EqClass),
      (∀ c' ∈ l1, keyMatches cfg k c' = false) → keyMatches cfg k c = true →
      assocIns cfg k inf (l1 ++ c :: l2) = some (l1 ++ ⟨c.key, inf :: c.infos⟩ :: l2) := by
    intro l1
    induction l1 with
    | nil =>
      intro c l2 _ hc
      simp [assocIns, hc]
    | cons c' t ih =>
      intro c l2 h hc
      have hc' := h c' (by simp)
      simp [assocIns, hc', ih c l2 (fun x hx => h x (List.mem_cons_of_mem c' hx)) hc]
  refine ⟨?_, ?_, ?_⟩
  · intro list h
    unfold assoc
    rw [hnone list h]
  · intro l1 c l2 h hc
    unfold assoc
    rw [hfirst l1 c l2 h hc]
  · intro c
    simp [keyMatches, Bool.and_eq_true, Bool.or_eq_true, decide_eq_true_eq, and_assoc]

/-- Witness for C8: the candidate skips a class of the wrong size and
joins the first matching class, not the later one. -/
theorem c8_first_fit_witness :
    assoc cfgN key0 infoF1 [⟨key1, [infoF2]⟩, ⟨key0, [infoF2]⟩, ⟨key0, []⟩] =
      [⟨key1, [infoF2]⟩, ⟨key0, [infoF1, infoF2]⟩, ⟨key0, []⟩] :=
  (c8_first_fit cfgN key0 infoF1).2.1 [⟨key1, [infoF2]⟩] ⟨key0, [infoF2]⟩ [⟨key0, []⟩]
    (by decide) (by decide)

/-- C9: `compare` returns 0 (Equal) exactly when both files open and their
byte lists coincide; -1 (Unreadable) whenever either file fails to open; 1
(Different) when both open and the bytes differ; the caller `replace`
treats any nonzero answer as a plain non-match, returning the pair
unmodified with no output and no fatal action; two zero-length files
compare Equal. -/
theorem c9_compare_correct :
    (∀ sys fs f1 f2, compare sys fs f1 f2 = 0 ↔
      ∃ i1 i2, openFile sys fs f1 = some i1 ∧ openFile sys fs f2 = some i2 ∧
        fs.content i1 = fs.content i2) ∧
    (∀ sys fs f1 f2, (openFile sys fs f1 = none ∨ openFile sys fs f2 = none) →
      compare sys fs f1 f2 = -1) ∧
    (∀ sys fs f1 f2 i1 i2, openFile sys fs f1 = some i1 → openFile sys fs f2 = some i2 →
      fs.content i1 ≠ fs.content i2 → compare sys fs f1 f2 = 1) ∧
    (∀ cfg sys fs (a b : Info), a.ino ≠ b.ino → compare sys fs a.name b.name ≠ 0 →
      replace cfg sys fs a b = ⟨fs, [], false⟩) ∧
    (∀ sys fs f1 f2 i1 i2, openFile sys fs f1 = some i1 → openFile sys fs f2 = some i2 →
      fs.content i1 = [] → fs.content i2 = [] → compare sys fs f1 f2 = 0) := by
  refine ⟨compare_eq_zero_iff, fun sys fs f1 f2 h => compare_unreadable h,
    fun _ _ _ _ _ _ h1 h2 hne => compare_different h1 h2 hne, ?_, ?_⟩
  · intro cfg sys fs a b hii hc
    unfold replace
    rw [if_neg hii, if_pos hc]
  · intro sys fs f1 f2 i1 i2 h1 h2 e1 e2
    exact (compare_eq_zero_iff sys fs f1 f2).mpr ⟨i1, i2, h1, h2, by rw [e1, e2]⟩

/-- Witness for C9: two concrete zero-length files compare Equal. -/
theorem c9_compare_correct_witness :
    compare sysAll fsEmpty "e1" "e2" = 0 :=
  c9_compare_correct.2.2.2.2 sysAll fsEmpty "e1" "e2" 5 6 (by decide) (by decide)
    (by decide) (by decide)

/-- C6: dry-run mode (`-n` / noexec) short-circuits the link-swap
protocol before any filesystem call: `replace2` only prints the intended
action and reports success, and a whole `combine` run performs no rename,
link or unlink, leaving the path-to-inode mapping untouched. -/
theorem c6_dryrun_pure {cfg : Config} {sys : Sys} (hnx : cfg.noexec = true) :
    (∀ fs src dst, replace2 cfg sys fs src dst = ⟨fs, [Ev.outLinkIntent dst src], 1⟩) ∧
    (∀ fs (l : List Info), (combine cfg sys fs l).fs = fs ∧
      ∀ e ∈ (combine cfg sys fs l).evs, evNoSyscall e = true) := by
  have hr2 : ∀ fs src dst, replace2 cfg sys fs src dst =
      ⟨fs, [Ev.outLinkIntent dst src], 1⟩ := by
    intro fs src dst
    simp [replace2, hnx]
  refine ⟨hr2, ?_⟩
  intro fs l
  have hrep : ∀ a b : Info, a ∈ l → b ∈ l → (replace cfg sys fs a b).fs = fs ∧
      ∀ e ∈ (replace cfg sys fs a b).evs, evNoSyscall e = true := by
    intro a b _ _
    by_cases hii : a.ino = b.ino
    · constructor <;> simp [replace, hii]
    · by_cases hc : compare sys fs a.name b.name ≠ 0
      · constructor <;> simp [replace, hii, hc]
      · cases hsa : lstatNlink sys fs a.name with
        | none => constructor <;> simp [replace, hii, hc, hsa, evNoSyscall]
        | some na =>
          cases hsb : lstatNlink sys fs b.name with
          | none => constructor <;> simp [replace, hii, hc, hsa, hsb, evNoSyscall]
          | some nb =>
            by_cases hle : nb ≤ na
            · constructor <;> simp [replace, hii, hc, hsa, hsb, hle, hr2, evNoSyscall]
            · constructor <;> simp [replace, hii, hc, hsa, hsb, hle, hr2, evNoSyscall]
  exact combineF_static hrep l.length l (fun m hm => hm)

/-- Witness for C6 on a concrete dry run. -/
theorem c6_dryrun_pure_witness :
    replace2 cfgDry sysAll fsAB "a" "b" = ⟨fsAB, [Ev.outLinkIntent "b" "a"], 1⟩ ∧
    (combine cfgDry sysAll fsAB [infoA, infoB]).fs = fsAB ∧
    ∀ e ∈ (combine cfgDry sysAll fsAB [infoA, infoB]).evs, evNoSyscall e = true :=
  ⟨(c6_dryrun_pure rfl).1 fsAB "a" "b",
   ((c6_dryrun_pure rfl).2 fsAB [infoA, infoB]).1,
   ((c6_dryrun_pure rfl).2 fsAB [infoA, infoB]).2⟩

/-- C5, counterexample: over three byte-identical files a (inode 1),
b (inode 2), c (inode 3, four extra external links), the first run links
b to a's inode 1 (the trace contains the successful `link(a, b)`), but
then relinks the sweep head `a` itself onto c's better-connected inode 3,
so the pair (a, b) that was linked in the first run ends the run with
DIFFERENT inode numbers (3 vs 1).  A second run over this output, with
accurate re-scan records, is not idempotent: it performs a further
successful `link(a, b)` merge. -/
theorem c5_counterexample :
    Ev.ln "a" "b" true ∈ (combine cfgN sysExt3 fsABC [infoA, infoB, infoC]).evs ∧
    (combine cfgN sysExt3 fsABC [infoA, infoB, infoC]).fs.lookup "a" = some 3 ∧
    (combine cfgN sysExt3 fsABC [infoA, infoB, infoC]).fs.lookup "b" = some 1 ∧
    (combine cfgN sysExt3 fsABC [infoA, infoB, infoC]).fs.lookup "c" = some 3 ∧
    Ev.ln "a" "b" true ∈
      (combine cfgN sysExt3 (combine cfgN sysExt3 fsABC [infoA, infoB, infoC]).fs
        [infoA2, infoB2, infoC2]).evs := by
  decide

/-- C5, amended: a run over a state in which every byte-identical pair of
members already shares an inode (and the scan records are accurate)
performs no filesystem call at all and leaves the state untouched; in
particular any same-inode pair is classified already-linked with no
mutation.  (The unconditional claim fails: the first run can leave
byte-identical pairs on distinct inodes when a sweep head is relinked
after retiring an earlier member, and a second run then merges further.) -/
theorem c5_amended_idempotent {cfg : Config} {sys : Sys} {fs : FS} {l : List Info}
    (hacc : ∀ m ∈ l, fs.lookup m.name = some m.ino)
    (huniq : ∀ m ∈ l, ∀ m' ∈ l, fs.content m.ino = fs.content m'.ino → m.ino = m'.ino) :
    (combine cfg sys fs l).fs = fs ∧
    (combine cfg sys fs l).evs = [] ∧
    (∀ a b : Info, a.ino = b.ino → replace cfg sys fs a b = ⟨fs, [], true⟩) := by
  have hrep : ∀ a b : Info, a ∈ l → b ∈ l → (replace cfg sys fs a b).fs = fs ∧
      ∀ e ∈ (replace cfg sys fs a b).evs, False := by
    intro a b ha hb
    by_cases hii : a.ino = b.ino
    · constructor <;> simp [replace, hii]
    · have hcne : compare sys fs a.name b.name ≠ 0 := by
        intro h0
        obtain ⟨i1, i2, ho1, ho2, he⟩ := (compare_eq_zero_iff sys fs a.name b.name).mp h0
        have l1 := openFile_some ho1
        have l2 := openFile_some ho2
        rw [hacc a ha] at l1
        rw [hacc b hb] at l2
        obtain rfl : a.ino = i1 := Option.some_inj.mp l1
        obtain rfl : b.ino = i2 := Option.some_inj.mp l2
        exact hii (huniq a ha b hb he)
      constructor <;> simp [replace, hii, hcne]
  obtain ⟨h1, h2⟩ := combineF_static hrep l.length l (fun m hm => hm)
  refine ⟨h1, List.eq_nil_iff_forall_not_mem.mpr (fun e he => h2 e he), ?_⟩
  intro a b hii
  simp [replace, hii]

/-- Witness for the amended C5 over a concrete consolidated state. -/
theorem c5_amended_idempotent_witness :
    (combine cfgN sysAll fsDone [infoDA, infoDB, infoDC]).fs = fsDone ∧
    (combine cfgN sysAll fsDone [infoDA, infoDB, infoDC]).evs = [] ∧
    (∀ a b : Info, a.ino = b.ino → replace cfgN sysAll fsDone a b = ⟨fsDone, [], true⟩) :=
  c5_amended_idempotent (by decide) (by decide)

/-- C4, counterexample: three byte-identical files a (inode 1), b (inode
2), c (inode 3 with four extra external links), all merges succeed.  The
sweep first retires b onto a's inode 1, then retires c by relinking the
head `a` itself onto c's better-connected inode 3.  So the class ends
with the single survivor a on inode 3, while the retired member b sits on
inode 1 — b shares an inode with NO survivor, refuting "every member
removed from the class shares an inode with exactly one survivor". -/
theorem c4_counterexample :
    infoB ∈ (combine cfgN sysExt3 fsABC [infoA, infoB, infoC]).retired ∧
    (combine cfgN sysExt3 fsABC [infoA, infoB, infoC]).survivors = [infoA] ∧
    (combine cfgN sysExt3 fsABC [infoA, infoB, infoC]).fs.lookup infoB.name = some 1 ∧
    (∀ s ∈ (combine cfgN sysExt3 fsABC [infoA, infoB, infoC]).survivors,
      (combine cfgN sysExt3 fsABC [infoA, infoB, infoC]).fs.lookup s.name ≠
        (combine cfgN sysExt3 fsABC [infoA, infoB, infoC]).fs.lookup infoB.name) := by
  decide

/-- C4, amended: after `combine` finishes on a class — no injected
failures, accurate scan records, distinct member names, fresh backup
names — the surviving members hold pairwise distinct bytes, and every
retired member is byte-identical to exactly one survivor (the head that
swept it).  The original "shares an inode with exactly one survivor"
fails because the sweeping head may itself be relinked to another inode
later in its sweep, stranding an earlier retiree's inode. -/
theorem c4_amended_partition {cfg : Config} {sys : Sys} {fs : FS} {l : List Info}
    (hfl : sys.flawless) (hnx : cfg.noexec = false)
    (hrec : RecOK fs l) (hbk : BkFresh cfg fs l) (hnod : NamesNodup l) :
    List.Pairwise
      (fun s t => contentAt (combine cfg sys fs l).fs s.name ≠
        contentAt (combine cfg sys fs l).fs t.name)
      (combine cfg sys fs l).survivors ∧
    ∀ r ∈ (combine cfg sys fs l).retired,
      ∃! s, s ∈ (combine cfg sys fs l).survivors ∧
        contentAt (combine cfg sys fs l).fs r.name =
          contentAt (combine cfg sys fs l).fs s.name := by
  simp only [combine]
  obtain ⟨pres, cont, hsub, hcov, hretm, hpair, hmatch⟩ :=
    combineF_flawless hfl hnx l.length l fs (le_refl _) hrec hbk hnod
  have hC : ∀ m ∈ l, contentAt (combineF cfg sys l.length fs l).fs m.name =
      some (fs.content m.ino) := by
    intro m hm
    rw [pres m.name, hrec m hm]
  constructor
  · refine List.Pairwise.imp_of_mem ?_ hpair
    intro s t hs ht hne
    rw [hC s (hsub.mem hs), hC t (hsub.mem ht)]
    intro hh
    exact hne (Option.some_inj.mp hh)
  · intro r hr
    obtain ⟨s, hs, he⟩ := hmatch r hr
    refine ⟨s, ⟨hs, ?_⟩, ?_⟩
    · rw [hC r (hretm r hr), hC s (hsub.mem hs), he]
    · intro s' hx
      obtain ⟨hs', he'⟩ := hx
      by_contra hne
      have hsym : Symmetric (fun s t : Info => fs.content s.ino ≠ fs.content t.ino) :=
        fun x y h => h.symm
      have hne2 := List.Pairwise.forall hsym hpair hs' hs hne
      have heq : contentAt (combineF cfg sys l.length fs l).fs s'.name =
          contentAt (combineF cfg sys l.length fs l).fs s.name := by
        rw [← he', hC r (hretm r hr), hC s (hsub.mem hs)]
        exact congrArg some he
      rw [hC s' (hsub.mem hs'), hC s (hsub.mem hs)] at heq
      exact hne2 (Option.some_inj.mp heq)

/-- Witness for the amended C4 on a flawless concrete run. -/
theorem c4_amended_partition_witness :
    List.Pairwise
      (fun s t => contentAt (combine cfgN sysAll fsUneq [infoA, infoB, infoC]).fs s.name ≠
        contentAt (combine cfgN sysAll fsUneq [infoA, infoB, infoC]).fs t.name)
      (combine cfgN sysAll fsUneq [infoA, infoB, infoC]).survivors ∧
    ∀ r ∈ (combine cfgN sysAll fsUneq [infoA, infoB, infoC]).retired,
      ∃! s, s ∈ (combine cfgN sysAll fsUneq [infoA, infoB, infoC]).survivors ∧
        contentAt (combine cfgN sysAll fsUneq [infoA, infoB, infoC]).fs r.name =
          contentAt (combine cfgN sysAll fsUneq [infoA, infoB, infoC]).fs s.name :=
  c4_amended_partition
    ⟨fun _ _ => rfl, fun _ _ => rfl, fun _ => rfl, fun _ => rfl, fun _ => rfl⟩
    rfl (by unfold RecOK; decide) (by unfold BkFresh; decide)
    (by unfold NamesNodup; decide)

/-- C7, counterexample: two byte-identical files with distinct inodes;
`lstat` of `a` is denied, so link-count data is unavailable.  The claim
says a merge direction is then still chosen (arbitrarily) and the reverse
direction is attempted on recoverable failure; in fact `replace` attempts
nothing in either direction: it prints "Cannot restat a", reports the
pair unhandled (as if the files differed), and performs no filesystem
call at all. -/
theorem c7_counterexample :
    (replace cfgN sysNoStatA fsAB infoA infoB).evs = [Ev.errCannotRestat "a"] ∧
    (replace cfgN sysNoStatA fsAB infoA infoB).ok = false ∧
    (replace cfgN sysNoStatA fsAB infoA infoB).fs.names = fsAB.names ∧
    (∀ e ∈ (replace cfgN sysNoStatA fsAB infoA infoB).evs, evNoSyscall e = true) := by
  decide

/-- C7, amended: with link-count data available, the name with the
strictly lower count is retired and relinked to the other name's inode
(both paths end on the kept inode, the kept name untouched); when `lstat`
of either name fails, the pair is skipped entirely — a "Cannot restat"
message, no attempt in any direction, result as for differing files. -/
theorem c7_amended_direction :
    (∀ (cfg : Config) (sys : Sys) (fs : FS) (a b : Info) (i j : Ino),
      sys.flawless → cfg.noexec = false → a.ino ≠ b.ino →
      fs.lookup a.name = some i → fs.lookup b.name = some j →
      fs.content i = fs.content j → a.name ≠ b.name →
      fs.lookup (b.name ++ cfg.tmpSuffix) = none →
      fs.nlink sys j ≤ fs.nlink sys i →
      (replace cfg sys fs a b).fs.lookup b.name = some i ∧
      (replace cfg sys fs a b).fs.lookup a.name = some i ∧
      (replace cfg sys fs a b).ok = true) ∧
    (∀ (cfg : Config) (sys : Sys) (fs : FS) (a b : Info) (i j : Ino),
      sys.flawless → cfg.noexec = false → a.ino ≠ b.ino →
      fs.lookup a.name = some i → fs.lookup b.name = some j →
      fs.content i = fs.content j → a.name ≠ b.name →
      fs.lookup (a.name ++ cfg.tmpSuffix) = none →
      fs.nlink sys i < fs.nlink sys j →
      (replace cfg sys fs a b).fs.lookup a.name = some j ∧
      (replace cfg sys fs a b).fs.lookup b.name = some j ∧
      (replace cfg sys fs a b).ok = true) ∧
    (∀ (cfg : Config) (sys : Sys) (fs : FS) (a b : Info),
      a.ino ≠ b.ino → compare sys fs a.name b.name = 0 →
      lstatNlink sys fs a.name = none →
      replace cfg sys fs a b = ⟨fs, [Ev.errCannotRestat a.name], false⟩) ∧
    (∀ (cfg : Config) (sys : Sys) (fs : FS) (a b : Info) (na : Nat),
      a.ino ≠ b.ino → compare sys fs a.name b.name = 0 →
      lstatNlink sys fs a.name = some na →
      lstatNlink sys fs b.name = none →
      replace cfg sys fs a b = ⟨fs, [Ev.errCannotRestat b.name], false⟩) := by
  refine ⟨?_, ?_, ?_, ?_⟩
  · intro cfg sys fs a b i j hfl hnx hii hia hjb hcc hab hbk hle
    have hopa : openFile sys fs a.name = some i := by
      simp [openFile, hfl.2.2.2.1, hia]
    have hopb : openFile sys fs b.name = some j := by
      simp [openFile, hfl.2.2.2.1, hjb]
    have hc0 : compare sys fs a.name b.name = 0 :=
      (compare_eq_zero_iff sys fs a.name b.name).mpr ⟨i, j, hopa, hopb, hcc⟩
    have hnc : ¬ (compare sys fs a.name b.name ≠ 0) := by rw [hc0]; simp
    have hsta : lstatNlink sys fs a.name = some (fs.nlink sys i) := by
      simp [lstatNlink, hfl.2.2.2.2, hia]
    have hstb : lstatNlink sys fs b.name = some (fs.nlink sys j) := by
      simp [lstatNlink, hfl.2.2.2.2, hjb]
    have hrw : replace cfg sys fs a b =
        ⟨(replace2 cfg sys fs a.name b.name).fs,
         (replace2 cfg sys fs a.name b.name).evs, true⟩ := by
      simp only [replace, if_neg hii, if_neg hnc, hsta, hstb, if_pos hle]
    obtain ⟨_, hdst, hoth, _⟩ := replace2_flawless hfl hnx hia hjb hbk hab
    have hfr : (replace cfg sys fs a b).fs = (replace2 cfg sys fs a.name b.name).fs := by
      rw [hrw]
    refine ⟨by rw [hfr]; exact hdst, by rw [hfr, hoth a.name hab]; exact hia, by rw [hrw]⟩
  · intro cfg sys fs a b i j hfl hnx hii hia hjb hcc hab hbk hlt
    have hopa : openFile sys fs a.name = some i := by
      simp [openFile, hfl.2.2.2.1, hia]
    have hopb : openFile sys fs b.name = some j := by
      simp [openFile, hfl.2.2.2.1, hjb]
    have hc0 : compare sys fs a.name b.name = 0 :=
      (compare_eq_zero_iff sys fs a.name b.name).mpr ⟨i, j, hopa, hopb, hcc⟩
    have hnc : ¬ (compare sys fs a.name b.name ≠ 0) := by rw [hc0]; simp
    have hsta : lstatNlink sys fs a.name = some (fs.nlink sys i) := by
      simp [lstatNlink, hfl.2.2.2.2, hia]
    have hstb : lstatNlink sys fs b.name = some (fs.nlink sys j) := by
      simp [lstatNlink, hfl.2.2.2.2, hjb]
    have hnle : ¬ (fs.nlink sys j ≤ fs.nlink sys i) := Nat.not_le.mpr hlt
    have hrw : replace cfg sys fs a b =
        ⟨(replace2 cfg sys fs b.name a.name).fs,
         (replace2 cfg sys fs b.name a.name).evs, true⟩ := by
      simp only [replace, if_neg hii, if_neg hnc, hsta, hstb, if_neg hnle]
    obtain ⟨_, hdst, hoth, _⟩ := replace2_flawless hfl hnx hjb hia hbk (Ne.symm hab)
    have hfr : (replace cfg sys fs a b).fs = (replace2 cfg sys fs b.name a.name).fs := by
      rw [hrw]
    refine ⟨by rw [hfr]; exact hdst,
      by rw [hfr, hoth b.name (Ne.symm hab)]; exact hjb, by rw [hrw]⟩
  · intro cfg sys fs a b hii hcmp hsta
    have hnc : ¬ (compare sys fs a.name b.name ≠ 0) := by rw [hcmp]; simp
    simp only [replace, if_neg hii, if_neg hnc, hsta]
  · intro cfg sys fs a b na hii hcmp hsta hstb
    have hnc : ¬ (compare sys fs a.name b.name ≠ 0) := by rw [hcmp]; simp
    simp only [replace, if_neg hii, if_neg hnc, hsta, hstb]

/-- Witness for the amended C7: a on inode 1 shows 3 links, b on inode 2
shows 1 link; b (the lower-count name) is retired onto inode 1. -/
theorem c7_amended_direction_witness :
    (replace cfgN sysExtA fsAB infoA infoB).fs.lookup "b" = some 1 ∧
    (replace cfgN sysExtA fsAB infoA infoB).fs.lookup "a" = some 1 ∧
    (replace cfgN sysExtA fsAB infoA infoB).ok = true :=
  c7_amended_direction.1 cfgN sysExtA fsAB infoA infoB 1 2
    ⟨fun _ _ => rfl, fun _ _ => rfl, fun _ => rfl, fun _ => rfl, fun _ => rfl⟩
    rfl (by decide) (by decide) (by decide) (by decide) (by decide) (by decide)
    (by decide)

/-- A successful `rename(old, dst)` moved `old`'s entry: the result is
the erase/insert table. -/
theorem fsRename_some_eq {sys : Sys} {fs : FS} {old dst : Path} {fs' : FS} {i : Ino}
    (hold : fs.lookup old = some i) (h : fsRename sys fs old dst = some fs') :
    fs' = (fs.erase old).insert dst i := by
  unfold fsRename at h
  by_cases hok : sys.renameOk old dst = true
  · rw [if_pos hok, hold] at h
    exact (Option.some_inj.mp h).symm
  · rw [if_neg hok] at h
    exact absurd h (by simp)

/-- A successful `link(src, dst)` added an entry for `src`'s inode. -/
theorem fsLink_some_eq {sys : Sys} {fs : FS} {src dst : Path} {fs' : FS} {i : Ino}
    (hsrc : fs.lookup src = some i) (h : fsLink sys fs src dst = some fs') :
    fs' = fs.insert dst i := by
  unfold fsLink at h
  by_cases hok : sys.linkOk src dst = true
  · rw [if_pos hok, hsrc] at h
    cases hd : fs.lookup dst with
    | some k => rw [hd] at h; exact absurd h (by simp)
    | none => rw [hd] at h; exact (Option.some_inj.mp h).symm
  · rw [if_neg hok] at h
    exact absurd h (by simp)

/-- A successful `unlink(p)` erased the entry. -/
theorem fsUnlink_some_eq {sys : Sys} {fs : FS} {p : Path} {fs' : FS}
    (h : fsUnlink sys fs p = some fs') : fs' = fs.erase p := by
  unfold fsUnlink at h
  by_cases hok : sys.unlinkOk p = true
  · rw [if_pos hok] at h
    cases hd : fs.lookup p with
    | none => rw [hd] at h; exact absurd h (by simp)
    | some k => rw [hd] at h; exact (Option.some_inj.mp h).symm
  · rw [if_neg hok] at h
    exact absurd h (by simp)

/-- C3, counterexample: a fully successful merge of two byte-identical
files on a system that denies nothing.  At the observable instant right
after the protocol's first step (the backup rename of `b`), the pre-run
path `b` does not resolve at all — its content sits only under the
backup name — refuting "no step leaves a pre-run path missing ...
including between the backup rename and the link creation". -/
theorem c3_counterexample :
    fsAB.lookup "b" = some 2 ∧
    (replace2 cfgN sysAll fsAB "a" "b").ret = 1 ∧
    ((statesAlong sysAll fsAB (replace2 cfgN sysAll fsAB "a" "b").evs)[1]?).map
      (fun s => s.lookup "b") = some none ∧
    ((statesAlong sysAll fsAB (replace2 cfgN sysAll fsAB "a" "b").evs)[1]?).map
      (fun s => s.lookup "b.t") = some (some 2) := by
  decide

/-- C3, amended: at every observable instant of the link-swap protocol —
under any injected failures — the CONTENT of every pre-run path survives:
each pre-run path either still resolves to a file with its pre-run bytes,
or it is the path being swapped (`to`), whose pre-run inode is then
reachable under the backup name.  The name `to` itself is transiently
missing between the backup rename and the link creation (and stays
missing after a failed restore), which is what the original claim rules
out. -/
theorem c3_amended_content_preserved {cfg : Config} {sys : Sys} {fs : FS}
    {src dst : Path} {si di : Ino}
    (hsrc : fs.lookup src = some si) (hdst : fs.lookup dst = some di)
    (hcc : fs.content si = fs.content di)
    (hbk : fs.lookup (dst ++ cfg.tmpSuffix) = none)
    (hsd : src ≠ dst) :
    ∀ s ∈ statesAlong sys fs (replace2 cfg sys fs src dst).evs,
      ∀ p i, fs.lookup p = some i →
        (∃ j, s.lookup p = some j ∧ s.content j = fs.content i) ∨
        (p = dst ∧ s.lookup (dst ++ cfg.tmpSuffix) = some i ∧
          s.content i = fs.content i) := by
  have hdb : dst ≠ dst ++ cfg.tmpSuffix := by
    intro hh; rw [hh, hbk] at hdst; exact Option.noConfusion hdst
  have hGen : ∀ p i, fs.lookup p = some i → p ≠ dst ++ cfg.tmpSuffix := by
    intro p i hp hh
    rw [hh, hbk] at hp
    exact Option.noConfusion hp
  have hBase : ∀ p i, fs.lookup p = some i →
      (∃ j, fs.lookup p = some j ∧ fs.content j = fs.content i) ∨
      (p = dst ∧ fs.lookup (dst ++ cfg.tmpSuffix) = some i ∧
        fs.content i = fs.content i) :=
    fun p i hp => Or.inl ⟨i, hp, rfl⟩
  by_cases hnx : cfg.noexec = true
  · have hev : (replace2 cfg sys fs src dst).evs = [Ev.outLinkIntent dst src] := by
      simp [replace2, hnx]
    intro s hs
    rw [hev] at hs
    simp only [statesAlong, List.scanl] at hs
    have a1 : applyEv sys fs (Ev.outLinkIntent dst src) = fs := rfl
    rw [a1] at hs
    simp only [List.mem_cons, List.not_mem_nil, or_false] at hs
    rcases hs with rfl | rfl
    · exact hBase
    · exact hBase
  · have hnx' : cfg.noexec = false := Bool.not_eq_true _ |>.mp hnx
    cases h1 : fsRename sys fs dst (dst ++ cfg.tmpSuffix) with
    | none =>
      have hev : (replace2 cfg sys fs src dst).evs =
          [Ev.rn dst (dst ++ cfg.tmpSuffix) false] := by
        simp [replace2, hnx', h1]
      intro s hs
      rw [hev] at hs
      simp only [statesAlong, List.scanl] at hs
      have a1 : applyEv sys fs (Ev.rn dst (dst ++ cfg.tmpSuffix) false) = fs := rfl
      rw [a1] at hs
      simp only [List.mem_cons, List.not_mem_nil, or_false] at hs
      rcases hs with rfl | rfl
      · exact hBase
      · exact hBase
    | some fs1 =>
      have e1 := fsRename_some_eq hdst h1
      subst e1
      have a1 : applyEv sys fs (Ev.rn dst (dst ++ cfg.tmpSuffix) true) =
          (fs.erase dst).insert (dst ++ cfg.tmpSuffix) di := by
        simp [applyEv, h1]
      have f1src : ((fs.erase dst).insert (dst ++ cfg.tmpSuffix) di).lookup src = some si := by
        rw [lookup_insert_ne _ _ (hGen src si hsrc), lookup_erase_ne _ hsd]
        exact hsrc
      have f1dst : ((fs.erase dst).insert (dst ++ cfg.tmpSuffix) di).lookup dst = none := by
        rw [lookup_insert_ne _ _ hdb, lookup_erase]
      have f1bkp : ((fs.erase dst).insert (dst ++ cfg.tmpSuffix) di).lookup
          (dst ++ cfg.tmpSuffix) = some di := lookup_insert _ _ _
      have hINV1 : ∀ p i, fs.lookup p = some i →
          (∃ j, ((fs.erase dst).insert (dst ++ cfg.tmpSuffix) di).lookup p = some j ∧
            ((fs.erase dst).insert (dst ++ cfg.tmpSuffix) di).content j = fs.content i) ∨
          (p = dst ∧ ((fs.erase dst).insert (dst ++ cfg.tmpSuffix) di).lookup
            (dst ++ cfg.tmpSuffix) = some i ∧
            ((fs.erase dst).insert (dst ++ cfg.tmpSuffix) di).content i = fs.content i) := by
        intro p i hp
        by_cases hpd : p = dst
        · right
          rw [hpd] at hp
          have hdi : i = di := Option.some_inj.mp (hp.symm.trans hdst)
          refine ⟨hpd, ?_, rfl⟩
          rw [f1bkp, hdi]
        · left
          refine ⟨i, ?_, rfl⟩
          rw [lookup_insert_ne _ _ (hGen p i hp), lookup_erase_ne _ hpd]
          exact hp
      cases h2 : fsLink sys ((fs.erase dst).insert (dst ++ cfg.tmpSuffix) di) src dst with
      | none =>
        have a2 : applyEv sys ((fs.erase dst).insert (dst ++ cfg.tmpSuffix) di)
            (Ev.ln src dst false) = (fs.erase dst).insert (dst ++ cfg.tmpSuffix) di := rfl
        cases h3 : fsRename sys ((fs.erase dst).insert (dst ++ cfg.tmpSuffix) di)
            (dst ++ cfg.tmpSuffix) dst with
        | none =>
          have hev : (replace2 cfg sys fs src dst).evs =
              [Ev.rn dst (dst ++ cfg.tmpSuffix) true, Ev.ln src dst false,
               Ev.rn (dst ++ cfg.tmpSuffix) dst false] := by
            simp [replace2, hnx', h1, h2, h3]
          intro s hs
          rw [hev] at hs
          simp only [statesAlong, List.scanl] at hs
          rw [a1, a2] at hs
          have a3 : applyEv sys ((fs.erase dst).insert (dst ++ cfg.tmpSuffix) di)
              (Ev.rn (dst ++ cfg.tmpSuffix) dst false) =
              (fs.erase dst).insert (dst ++ cfg.tmpSuffix) di := rfl
          rw [a3] at hs
          simp only [List.mem_cons, List.not_mem_nil, or_false] at hs
          rcases hs with rfl | rfl | rfl | rfl
          · exact hBase
          · exact hINV1
          · exact hINV1
          · exact hINV1
        | some fs2 =>
          have e2 := fsRename_some_eq f1bkp h3
          subst e2
          have a3 : applyEv sys ((fs.erase dst).insert (dst ++ cfg.tmpSuffix) di)
              (Ev.rn (dst ++ cfg.tmpSuffix) dst true) =
              (((fs.erase dst).insert (dst ++ cfg.tmpSuffix) di).erase
                (dst ++ cfg.tmpSuffix)).insert dst di := by
            simp [applyEv, h3]
          have hINV2 : ∀ p i, fs.lookup p = some i →
              (∃ j, ((((fs.erase dst).insert (dst ++ cfg.tmpSuffix) di).erase
                  (dst ++ cfg.tmpSuffix)).insert dst di).lookup p = some j ∧
                ((((fs.erase dst).insert (dst ++ cfg.tmpSuffix) di).erase
                  (dst ++ cfg.tmpSuffix)).insert dst di).content j = fs.content i) ∨
              (p = dst ∧ ((((fs.erase dst).insert (dst ++ cfg.tmpSuffix) di).erase
                  (dst ++ cfg.tmpSuffix)).insert dst di).lookup (dst ++ cfg.tmpSuffix) =
                  some i ∧
                ((((fs.erase dst).insert (dst ++ cfg.tmpSuffix) di).erase
                  (dst ++ cfg.tmpSuffix)).insert dst di).content i = fs.content i) := by
            intro p i hp
            left
            by_cases hpd : p = dst
            · rw [hpd] at hp
              have hdi : i = di := Option.some_inj.mp (hp.symm.trans hdst)
              refine ⟨di, ?_, by rw [hdi]; rfl⟩
              rw [hpd, lookup_insert]
            · refine ⟨i, ?_, rfl⟩
              rw [lookup_insert_ne _ _ hpd, lookup_erase_ne _ (hGen p i hp),
                lookup_insert_ne _ _ (hGen p i hp), lookup_erase_ne _ hpd]
              exact hp
          have hev : (replace2 cfg sys fs src dst).evs =
              [Ev.rn dst (dst ++ cfg.tmpSuffix) true, Ev.ln src dst false,
               Ev.rn (dst ++ cfg.tmpSuffix) dst true,
               Ev.errFailedLink dst src (dst ++ cfg.tmpSuffix)] := by
            simp [replace2, hnx', h1, h2, h3]
          intro s hs
          rw [hev] at hs
          simp only [statesAlong, List.scanl] at hs
          rw [a1, a2, a3] at hs
          have a4 : applyEv sys ((((fs.erase dst).insert (dst ++ cfg.tmpSuffix) di).erase
              (dst ++ cfg.tmpSuffix)).insert dst di)
              (Ev.errFailedLink dst src (dst ++ cfg.tmpSuffix)) =
              (((fs.erase dst).insert (dst ++ cfg.tmpSuffix) di).erase
                (dst ++ cfg.tmpSuffix)).insert dst di := rfl
          rw [a4] at hs
          simp only [List.mem_cons, List.not_mem_nil, or_false] at hs
          rcases hs with rfl | rfl | rfl | rfl | rfl
          · exact hBase
          · exact hINV1
          · exact hINV1
          · exact hINV2
          · exact hINV2
      | some fs2 =>
        have e2 := fsLink_some_eq f1src h2
        subst e2
        have a2 : applyEv sys ((fs.erase dst).insert (dst ++ cfg.tmpSuffix) di)
            (Ev.ln src dst true) =
            ((fs.erase dst).insert (dst ++ cfg.tmpSuffix) di).insert dst si := by
          simp [applyEv, h2]
        have f2bkp : (((fs.erase dst).insert (dst ++ cfg.tmpSuffix) di).insert dst si).lookup
            (dst ++ cfg.tmpSuffix) = some di := by
          rw [lookup_insert_ne _ _ (Ne.symm hdb), lookup_insert]
        have hINV2 : ∀ p i, fs.lookup p = some i →
            (∃ j, (((fs.erase dst).insert (dst ++ cfg.tmpSuffix) di).insert dst si).lookup p =
                some j ∧
              (((fs.erase dst).insert (dst ++ cfg.tmpSuffix) di).insert dst si).content j =
                fs.content i) ∨
            (p = dst ∧ (((fs.erase dst).insert (dst ++ cfg.tmpSuffix) di).insert
                dst si).lookup (dst ++ cfg.tmpSuffix) = some i ∧
              (((fs.erase dst).insert (dst ++ cfg.tmpSuffix) di).insert dst si).content i =
                fs.content i) := by
          intro p i hp
          left
          by_cases hpd : p = dst
          · rw [hpd] at hp
            have hdi : i = di := Option.some_inj.mp (hp.symm.trans hdst)
            refine ⟨si, ?_, ?_⟩
            · rw [hpd, lookup_insert]
            · show fs.content si = fs.content i
              rw [hdi]
              exact hcc
          · refine ⟨i, ?_, rfl⟩
            rw [lookup_insert_ne _ _ hpd, lookup_insert_ne _ _ (hGen p i hp),
              lookup_erase_ne _ hpd]
            exact hp
        cases h3 : fsUnlink sys (((fs.erase dst).insert (dst ++ cfg.tmpSuffix) di).insert
            dst si) (dst ++ cfg.tmpSuffix) with
        | none =>
          have hev : (replace2 cfg sys fs src dst).evs =
              [Ev.rn dst (dst ++ cfg.tmpSuffix) true, Ev.ln src dst true,
               Ev.ul (dst ++ cfg.tmpSuffix) false,
               Ev.errCannotRemove (dst ++ cfg.tmpSuffix)] ++
              (if cfg.verbose = true then [Ev.outLinking dst src] else []) := by
            simp [replace2, hnx', h1, h2, h3]
          intro s hs
          rw [hev] at hs
          by_cases hv : cfg.verbose = true
          · rw [if_pos hv] at hs
            simp only [statesAlong, List.scanl, List.cons_append, List.nil_append] at hs
            rw [a1, a2] at hs
            have a3 : applyEv sys (((fs.erase dst).insert (dst ++ cfg.tmpSuffix) di).insert
                dst si) (Ev.ul (dst ++ cfg.tmpSuffix) false) =
                ((fs.erase dst).insert (dst ++ cfg.tmpSuffix) di).insert dst si := rfl
            rw [a3] at hs
            have a4 : applyEv sys (((fs.erase dst).insert (dst ++ cfg.tmpSuffix) di).insert
                dst si) (Ev.errCannotRemove (dst ++ cfg.tmpSuffix)) =
                ((fs.erase dst).insert (dst ++ cfg.tmpSuffix) di).insert dst si := rfl
            rw [a4] at hs
            have a5 : applyEv sys (((fs.erase dst).insert (dst ++ cfg.tmpSuffix) di).insert
                dst si) (Ev.outLinking dst src) =
                ((fs.erase dst).insert (dst ++ cfg.tmpSuffix) di).insert dst si := rfl
            rw [a5] at hs
            simp only [List.mem_cons, List.not_mem_nil, or_false] at hs
            rcases hs with rfl | rfl | rfl | rfl | rfl | rfl
            · exact hBase
            · exact hINV1
            · exact hINV2
            · exact hINV2
            · exact hINV2
            · exact hINV2
          · rw [if_neg hv] at hs
            simp only [statesAlong, List.scanl, List.append_nil] at hs
            rw [a1, a2] at hs
            have a3 : applyEv sys (((fs.erase dst).insert (dst ++ cfg.tmpSuffix) di).insert
                dst si) (Ev.ul (dst ++ cfg.tmpSuffix) false) =
                ((fs.erase dst).insert (dst ++ cfg.tmpSuffix) di).insert dst si := rfl
            rw [a3] at hs
            have a4 : applyEv sys (((fs.erase dst).insert (dst ++ cfg.tmpSuffix) di).insert
                dst si) (Ev.errCannotRemove (dst ++ cfg.tmpSuffix)) =
                ((fs.erase dst).insert (dst ++ cfg.tmpSuffix) di).insert dst si := rfl
            rw [a4] at hs
            simp only [List.mem_cons, List.not_mem_nil, or_false] at hs
            rcases hs with rfl | rfl | rfl | rfl | rfl
            · exact hBase
            · exact hINV1
            · exact hINV2
            · exact hINV2
            · exact hINV2
        | some fs3 =>
          have e3 := fsUnlink_some_eq h3
          subst e3
          have a3 : applyEv sys (((fs.erase dst).insert (dst ++ cfg.tmpSuffix) di).insert
              dst si) (Ev.ul (dst ++ cfg.tmpSuffix) true) =
              ((((fs.erase dst).insert (dst ++ cfg.tmpSuffix) di).insert dst si).erase
                (dst ++ cfg.tmpSuffix)) := by
            simp [applyEv, h3]
          have hINV3 : ∀ p i, fs.lookup p = some i →
              (∃ j, (((((fs.erase dst).insert (dst ++ cfg.tmpSuffix) di).insert dst si).erase
                  (dst ++ cfg.tmpSuffix))).lookup p = some j ∧
                (((((fs.erase dst).insert (dst ++ cfg.tmpSuffix) di).insert dst si).erase
                  (dst ++ cfg.tmpSuffix))).content j = fs.content i) ∨
              (p = dst ∧ (((((fs.erase dst).insert (dst ++ cfg.tmpSuffix) di).insert
                  dst si).erase (dst ++ cfg.tmpSuffix))).lookup (dst ++ cfg.tmpSuffix) =
                  some i ∧
                (((((fs.erase dst).insert (dst ++ cfg.tmpSuffix) di).insert dst si).erase
                  (dst ++ cfg.tmpSuffix))).content i = fs.content i) := by
            intro p i hp
            left
            by_cases hpd : p = dst
            · rw [hpd] at hp
              have hdi : i = di := Option.some_inj.mp (hp.symm.trans hdst)
              refine ⟨si, ?_, ?_⟩
              · rw [hpd, lookup_erase_ne _ hdb, lookup_insert]
              · show fs.content si = fs.content i
                rw [hdi]
                exact hcc
            · refine ⟨i, ?_, rfl⟩
              rw [lookup_erase_ne _ (hGen p i hp), lookup_insert_ne _ _ hpd,
                lookup_insert_ne _ _ (hGen p i hp), lookup_erase_ne _ hpd]
              exact hp
          have hev : (replace2 cfg sys fs src dst).evs =
              [Ev.rn dst (dst ++ cfg.tmpSuffix) true, Ev.ln src dst true,
               Ev.ul (dst ++ cfg.tmpSuffix) true] ++
              (if cfg.verbose = true then [Ev.outLinking dst src] else []) := by
            simp [replace2, hnx', h1, h2, h3]
          intro s hs
          rw [hev] at hs
          by_cases hv : cfg.verbose = true
          · rw [if_pos hv] at hs
            simp only [statesAlong, List.scanl, List.cons_append, List.nil_append] at hs
            rw [a1, a2, a3] at hs
            have a4 : applyEv sys ((((fs.erase dst).insert (dst ++ cfg.tmpSuffix) di).insert
                dst si).erase (dst ++ cfg.tmpSuffix)) (Ev.outLinking dst src) =
                ((((fs.erase dst).insert (dst ++ cfg.tmpSuffix) di).insert dst si).erase
                  (dst ++ cfg.tmpSuffix)) := rfl
            rw [a4] at hs
            simp only [List.mem_cons, List.not_mem_nil, or_false] at hs
            rcases hs with rfl | rfl | rfl | rfl | rfl
            · exact hBase
            · exact hINV1
            · exact hINV2
            · exact hINV3
            · exact hINV3
          · rw [if_neg hv] at hs
            simp only [statesAlong, List.scanl, List.append_nil] at hs
            rw [a1, a2, a3] at hs
            simp only [List.mem_cons, List.not_mem_nil, or_false] at hs
            rcases hs with rfl | rfl | rfl | rfl
            · exact hBase
            · exact hINV1
            · exact hINV2
            · exact hINV3

/-- The initial state is the first observable instant of any trace. -/
theorem statesAlong_head_mem (sys : Sys) (fs : FS) (l : List Ev) :
    fs ∈ statesAlong sys fs l := by
  cases l <;> simp [statesAlong, List.scanl]

/-- Witness for the amended C3: a concrete instant of a concrete run,
with the source path still resolving to its pre-run content. -/
theorem c3_amended_content_preserved_witness :
    fsAB.lookup "a" = some 1 ∧
    ((∃ j, fsAB.lookup "a" = some j ∧ fsAB.content j = fsAB.content 1) ∨
      ("a" = "b" ∧ fsAB.lookup ("b" ++ cfgN.tmpSuffix) = some 1 ∧
        fsAB.content 1 = fsAB.content 1)) :=
  ⟨by decide,
   @c3_amended_content_preserved cfgN sysAll fsAB "a" "b" 1 2
     (by decide) (by decide) (by decide) (by decide) (by decide) fsAB
     (statesAlong_head_mem sysAll fsAB (replace2 cfgN sysAll fsAB "a" "b").evs)
     "a" 1 (by decide)⟩

/-- C10, counterexample: two byte-identical files of equal link count,
discovered in the order f1 then f2.  `assoc` prepends, so the class
member list is [f2, f1]: the head handed to the sweep is f2, the LATER
discovery, and the tail member is f1, the EARLIER discovery.  On the tie
the tail member f1 is retired (relinked from inode 1 to f2's inode 2) —
so the retired tail member is the earlier-discovered name, not the
later-discovered one as the claim's parenthetical states. -/
theorem c10_counterexample :
    assoc cfgN key0 infoF2 (assoc cfgN key0 infoF1 []) = [⟨key0, [infoF2, infoF1]⟩] ∧
    (combine cfgN sysAll fsTwo [infoF2, infoF1]).retired = [infoF1] ∧
    (combine cfgN sysAll fsTwo [infoF2, infoF1]).survivors = [infoF2] ∧
    (combine cfgN sysAll fsTwo [infoF2, infoF1]).fs.lookup "f1" = some 2 ∧
    fsTwo.lookup "f1" = some 1 := by
  decide

/-- C10, amended: on equal hard-link counts the second argument of
`replace` — the tail member — is always the one retired and relinked to
the head's inode, deterministically (the `<=` comparison, not anything
platform-dependent).  But since `assoc` pushes each newly discovered
member onto the FRONT of its class's member list, the head is the most
recently discovered member and the tail members are the earlier
discoveries: the retired tail member is the earlier-discovered name. -/
theorem c10_amended_tiebreak :
    (∀ (cfg : Config) (sys : Sys) (fs : FS) (a b : Info) (i j : Ino),
      sys.flawless → cfg.noexec = false → a.ino ≠ b.ino →
      fs.lookup a.name = some i → fs.lookup b.name = some j →
      fs.content i = fs.content j → a.name ≠ b.name →
      fs.lookup (b.name ++ cfg.tmpSuffix) = none →
      fs.nlink sys j = fs.nlink sys i →
      (replace cfg sys fs a b).fs.lookup b.name = some i ∧
      (replace cfg sys fs a b).fs.lookup a.name = some i) ∧
    (∀ (cfg : Config) (k : HeadKey) (inf : Info) (c : EqClass) (rest : List EqClass),
      keyMatches cfg k c = true →
      assoc cfg k inf (c :: rest) = ⟨c.key, inf :: c.infos⟩ :: rest) := by
  constructor
  · intro cfg sys fs a b i j hfl hnx hii hia hjb hcc hab hbk heq
    have h := c7_amended_direction.1 cfg sys fs a b i j hfl hnx hii hia hjb hcc hab hbk
      (le_of_eq heq)
    exact ⟨h.1, h.2.1⟩
  · intro cfg k inf c rest hc
    simp [assoc, assocIns, hc]

/-- Witness for the amended C10 on a concrete equal-count tie. -/
theorem c10_amended_tiebreak_witness :
    ((replace cfgN sysAll fsTwo infoF2 infoF1).fs.lookup "f1" = some 2 ∧
     (replace cfgN sysAll fsTwo infoF2 infoF1).fs.lookup "f2" = some 2) ∧
    assoc cfgN key0 infoF2 [⟨key0, [infoF1]⟩] = [⟨key0, [infoF2, infoF1]⟩] :=
  ⟨c10_amended_tiebreak.1 cfgN sysAll fsTwo infoF2 infoF1 2 1
     ⟨fun _ _ => rfl, fun _ _ => rfl, fun _ => rfl, fun _ => rfl, fun _ => rfl⟩
     rfl (by decide) (by decide) (by decide) (by decide) (by decide) (by decide)
     (by decide),
   c10_amended_tiebreak.2 cfgN key0 infoF2 ⟨key0, [infoF1]⟩ [] (by decide)⟩

end RatProg
